import Mathlib

/-!
Verification of the student CSV ingestion pipeline
(`myceleryapp`: `tasks.py`, `views.py`, `models.py`).

The embedding models:
  * the two persisted entities, Django auth `User` (the account) and
    `Student` (the profile) from `models.py`, as records; the database as
    lists of rows;
  * `QuerySet.get_or_create` for both entities, including the relevant
    NOT NULL column constraints of the backing store (passing `None` for a
    non-nullable column raises `IntegrityError` at creation time; a lookup
    on `username=None` or `reg_no=None` matches no row because those
    columns are NOT NULL);
  * the Celery task `process_students_csv` from `tasks.py`: a streaming
    loop over `csv.DictReader` rows.  The Python text layer
    (`TextIOWrapper`) reads the byte stream in fixed-size chunks and
    decodes each chunk with a strict incremental UTF-8 decoder, so a
    malformed byte raises `UnicodeDecodeError` at the `readline` that
    touches its chunk — after the complete lines of the earlier chunks
    have already been handed to the CSV loop.  `processStream` embeds
    this chunked pipeline end to end; `processCsv`/`processCsvData`
    embed the row loop over the lines made available by the text layer
    (for intact streams that is every line of the file).
    `csv.DictReader`
    is modelled for inputs without quoted fields: the first line is the
    header, blank data lines are skipped, short rows pad the missing
    columns with `None` (the default `restval`), extra fields beyond the
    header are dropped (they live under the non-string `restkey` and are
    unobservable through the string-keyed `row.get` calls of the task);
  * the two HTTP views `upload_students_csv` and `get_task_status` from
    `views.py`, and `celery.result.AsyncResult` at its boundary (an
    identifier unknown to the result backend reports state `PENDING`).
-/

namespace MyCeleryApp

/-- Django auth `User` (the account entity).  `username` is unique and NOT
NULL; `first_name`, `last_name`, `email` are NOT NULL columns (blank
allowed, NULL not). -/
structure User where
  username : String
  first_name : String
  last_name : String
  email : String
deriving DecidableEq

/-- `Student` from `models.py`.  `user` is a nullable reference (modelled
by the referenced username); `reg_no` is unique and NOT NULL; `email` is
nullable; `first_name`, `last_name`, `department`, `level` are NOT NULL. -/
structure Student where
  user : Option String
  reg_no : String
  first_name : String
  last_name : String
  email : Option String
  department : String
  level : String
deriving DecidableEq

/-- The backing relational store: the `auth_user` table and the student
table, in insertion order. -/
structure DB where
  users : List User
  students : List Student
deriving DecidableEq

def emptyDB : DB := { users := [], students := [] }

/-- The exceptions the task can raise. -/
inductive PyError where
  | integrityError
  | decodeError
deriving DecidableEq

/-- Lookup step of `User.objects.get_or_create(username=k)`.  A `None`
lookup value matches no row: `username` is NOT NULL in the store. -/
def findUser (db : DB) (k : Option String) : Option User :=
  match k with
  | none => none
  | some un => db.users.find? (fun u => u.username == un)

/-- Lookup step of `Student.objects.get_or_create(reg_no=k)`. -/
def findStudent (db : DB) (k : Option String) : Option Student :=
  match k with
  | none => none
  | some rn => db.students.find? (fun s => s.reg_no == rn)

/-- `User.objects.get_or_create(username=username, defaults={...})`.
On a hit the existing row is returned untouched.  On a miss a row is
inserted; inserting `NULL` into any of the NOT NULL columns raises
`IntegrityError`. -/
def userGetOrCreate (db : DB)
    (username first_name last_name email : Option String) :
    Except PyError (DB × User × Bool) :=
  match findUser db username with
  | some u => .ok (db, u, false)
  | none =>
    match username, first_name, last_name, email with
    | some un, some fn, some ln, some em =>
      let u : User := { username := un, first_name := fn, last_name := ln, email := em }
      .ok ({ db with users := db.users ++ [u] }, u, true)
    | _, _, _, _ => .error .integrityError

/-- `Student.objects.get_or_create(reg_no=reg_no, defaults={...})`.
`user` and `email` are nullable columns; the rest are NOT NULL. -/
def studentGetOrCreate (db : DB) (reg_no : Option String) (user : Option String)
    (first_name last_name email department level : Option String) :
    Except PyError (DB × Student × Bool) :=
  match findStudent db reg_no with
  | some s => .ok (db, s, false)
  | none =>
    match reg_no, first_name, last_name, department, level with
    | some rn, some fn, some ln, some dep, some lvl =>
      let s : Student := { user := user, reg_no := rn, first_name := fn,
                           last_name := ln, email := email,
                           department := dep, level := lvl }
      .ok ({ db with students := db.students ++ [s] }, s, true)
    | _, _, _, _, _ => .error .integrityError

/-- One `csv.DictReader` row: each header column mapped to its value,
which is `none` when the physical row was too short (`restval = None`). -/
abbrev Row := List (String × Option String)

/-- `row.get(k)`: `none` both when the key is absent and when the stored
value is `None`. -/
def rowGet (row : Row) (k : String) : Option String :=
  match row.lookup k with
  | some v => v
  | none => none

/-- `row.get(k, d)`: the stored value when the key is present (even when
that value is `None`), the default `d` only when the key is absent. -/
def rowGetD (row : Row) (k : String) (d : String) : Option String :=
  match row.lookup k with
  | some v => v
  | none => some d

/-- One iteration of the `for row in reader` loop of
`process_students_csv`: the two upserts.  An exception leaves behind the
store as already mutated (each `get_or_create` autocommits). -/
def processRow (db : DB) (row : Row) : DB × Option PyError :=
  let reg_no := rowGet row "reg_no"
  let first_name := rowGet row "first_name"
  let last_name := rowGet row "last_name"
  let email := rowGet row "email"
  let department := rowGetD row "department" ""
  let level := rowGetD row "level" ""
  match userGetOrCreate db reg_no first_name last_name email with
  | .error e => (db, some e)
  | .ok (db₁, user, _) =>
    match studentGetOrCreate db₁ reg_no (some user.username)
        first_name last_name email department level with
    | .error e => (db₁, some e)
    | .ok (db₂, _, _) => (db₂, none)

/-- The row loop over an already-parsed row sequence: the first exception
aborts the task, leaving the remaining rows unprocessed. -/
def processRows (db : DB) : List Row → DB × Option PyError
  | [] => (db, none)
  | r :: rs =>
    match processRow db r with
    | (db₁, none) => processRows db₁ rs
    | (db₁, some e) => (db₁, some e)

/-- Is `b` a UTF-8 continuation byte. -/
def utf8Cont (b : Nat) : Bool := 0x80 ≤ b && b ≤ 0xBF

/-- Strict UTF-8 decoding of one line of bytes into code points, exactly
the sequences accepted by the strict `utf-8` codec the file is opened
with: overlong encodings, surrogates and values above `0x10FFFF` are
rejected. -/
def utf8Decode : List Nat → Option (List Nat)
  | [] => some []
  | b :: bs =>
    if b ≤ 0x7F then
      (utf8Decode bs).map (fun t => b :: t)
    else if 0xC2 ≤ b && b ≤ 0xDF then
      match bs with
      | b₁ :: rest =>
        if utf8Cont b₁ then
          (utf8Decode rest).map (fun t => ((b - 0xC0) * 0x40 + (b₁ - 0x80)) :: t)
        else none
      | [] => none
    else if 0xE0 ≤ b && b ≤ 0xEF then
      match bs with
      | b₁ :: b₂ :: rest =>
        if (if b == 0xE0 then decide (0xA0 ≤ b₁ && b₁ ≤ 0xBF)
            else if b == 0xED then decide (0x80 ≤ b₁ && b₁ ≤ 0x9F)
            else utf8Cont b₁) && utf8Cont b₂ then
          (utf8Decode rest).map (fun t =>
            ((b - 0xE0) * 0x1000 + (b₁ - 0x80) * 0x40 + (b₂ - 0x80)) :: t)
        else none
      | _ => none
    else if 0xF0 ≤ b && b ≤ 0xF4 then
      match bs with
      | b₁ :: b₂ :: b₃ :: rest =>
        if (if b == 0xF0 then decide (0x90 ≤ b₁ && b₁ ≤ 0xBF)
            else if b == 0xF4 then decide (0x80 ≤ b₁ && b₁ ≤ 0x8F)
            else utf8Cont b₁) && utf8Cont b₂ && utf8Cont b₃ then
          (utf8Decode rest).map (fun t =>
            ((b - 0xF0) * 0x40000 + (b₁ - 0x80) * 0x1000 +
              (b₂ - 0x80) * 0x40 + (b₃ - 0x80)) :: t)
        else none
      | _ => none
    else none

/-- Split a nonempty decoded line into comma-separated fields, the way
`csv.reader` tokenises an unquoted record. -/
def splitCommas : List Nat → List (List Nat)
  | [] => [[]]
  | c :: rest =>
    if c == 44 then [] :: splitCommas rest
    else
      match splitCommas rest with
      | g :: gs => (c :: g) :: gs
      | [] => [[c]]

def cpsToString (cps : List Nat) : String := String.mk (cps.map Char.ofNat)

/-- Decode and tokenise one physical line.  `none` is a
`UnicodeDecodeError`; a blank line yields the empty record `[]`, which
`csv.DictReader` skips when it appears among the data rows. -/
def parseLine (bytes : List Nat) : Option (List String) :=
  match utf8Decode bytes with
  | none => none
  | some [] => some []
  | some cps => some ((splitCommas cps).map cpsToString)

/-- Pair header columns with the fields of one record, padding a short
record with `none` (`restval = None`); fields beyond the header are
dropped (they sit under `restkey`, unreachable by `row.get` with a string
key). -/
def zipRow : List String → List String → Row
  | [], _ => []
  | h :: hs, [] => (h, none) :: zipRow hs []
  | h :: hs, f :: fs => (h, some f) :: zipRow hs fs

/-- The streaming loop of `process_students_csv` after the header has
been consumed, over the lines the text layer makes available (for an
intact stream: every line of the file; other streams go through
`processStream`, whose chunked text layer yields the lines preceding
the bad chunk).  Blank records are skipped, each row is processed, and
the first exception aborts the task.  The `parseLine` decode check only
fires on lines that are themselves malformed; a malformed byte in a
stream surfaces at chunk granularity in `processStream` instead. -/
def processCsvData (db : DB) (header : List String) :
    List (List Nat) → DB × Option PyError
  | [] => (db, none)
  | line :: rest =>
    match parseLine line with
    | none => (db, some .decodeError)
    | some [] => processCsvData db header rest
    | some fields =>
      match processRow db (zipRow header fields) with
      | (db₁, none) => processCsvData db₁ header rest
      | (db₁, some e) => (db₁, some e)

/-- `process_students_csv` on the lines of an uploaded file that the
text layer delivers intact (each given as its byte sequence).
`csv.DictReader` takes the first line, whatever it is, as the header; an
empty file yields no rows and the loop body never runs.  For a stream
whose decoding fails mid-file, `processStream` is the faithful model. -/
def processCsv (db : DB) (lines : List (List Nat)) : DB × Option PyError :=
  match lines with
  | [] => (db, none)
  | hline :: rest =>
    match parseLine hline with
    | none => (db, some .decodeError)
    | some header => processCsvData db header rest

/-- The row sequence `csv.DictReader` yields for a stream whose lines all
decode: the first line is consumed as the header, blank records are
skipped, every other line becomes a row. -/
def csvRows (lines : List (List Nat)) : List Row :=
  match lines with
  | [] => []
  | hline :: rest =>
    match parseLine hline with
    | none => []
    | some header =>
      rest.filterMap (fun l =>
        match parseLine l with
        | none => none
        | some [] => none
        | some fields => some (zipRow header fields))

/-- ASCII byte encoding of a string, for concrete inputs. -/
def asciiBytes (s : String) : List Nat := s.data.map Char.toNat

/-- Celery task states as reported by the result backend. -/
inductive TaskState where
  | PENDING
  | STARTED
  | SUCCESS
  | FAILURE
deriving DecidableEq

def TaskState.label : TaskState → String
  | .PENDING => "PENDING"
  | .STARTED => "STARTED"
  | .SUCCESS => "SUCCESS"
  | .FAILURE => "FAILURE"

/-- A DRF `Response`: HTTP status code plus the JSON object body (all
values in the two views are strings). -/
structure HttpResponse where
  statusCode : Nat
  body : List (String × String)
deriving DecidableEq

/-- `celery.result.AsyncResult(task_id, app=app).status`: the result
backend is a map from task ids to states, and an identifier not present
in it reports `PENDING` — Celery does not distinguish an unknown id from
a task that has not run yet. -/
def asyncResultStatus (backend : List (String × TaskState)) (taskId : String) :
    TaskState :=
  (backend.lookup taskId).getD .PENDING

/-- The view `get_task_status` from `views.py`: unconditionally HTTP 200
with a body of exactly the two keys `task_id` and `status`. -/
def get_task_status (backend : List (String × TaskState)) (taskId : String) :
    HttpResponse :=
  { statusCode := 200,
    body := [("task_id", taskId),
             ("status", (asyncResultStatus backend taskId).label)] }

structure UploadedFile where
  name : String
  content : List Nat
deriving DecidableEq

/-- Server-side state the upload view touches: the media directory
(path to saved bytes) and the Celery queue (file paths of enqueued
tasks). -/
structure ServerState where
  mediaFiles : List (String × List Nat)
  queue : List String
deriving DecidableEq

/-- The view `upload_students_csv` from `views.py`.  With no `file` part
it answers HTTP 400 and touches nothing; otherwise it writes the bytes
under the file name inside the media root, enqueues
`process_students_csv` on that path, and answers HTTP 202.  The task id
is produced by Celery and passed in as `newTaskId`. -/
def upload_students_csv (st : ServerState) (file : Option UploadedFile)
    (newTaskId : String) : ServerState × HttpResponse :=
  match file with
  | none =>
    (st, { statusCode := 400, body := [("error", "CSV file is required.")] })
  | some f =>
    let path := "media/" ++ f.name
    let st₁ : ServerState := { mediaFiles := (path, f.content) :: st.mediaFiles,
                               queue := st.queue ++ [path] }
    (st₁, { statusCode := 202,
            body := [("message", "CSV upload received. Processing started."),
                     ("task_id", newTaskId),
                     ("status", "PENDING")] })

/-- Proof device: what the student upsert of `processRow` appends and
raises, as a function of the student lookup result `so`, the username
`un` obtained from the account upsert, and the row. -/
def studDelta (un : String) (so : Option Student) (r : Row) :
    List Student × Option PyError :=
  match so with
  | some _ => ([], none)
  | none =>
    match rowGet r "reg_no", rowGet r "first_name", rowGet r "last_name",
        rowGetD r "department" "", rowGetD r "level" "" with
    | some rn, some fn, some ln, some dep, some lvl =>
      ([{ user := some un, reg_no := rn, first_name := fn, last_name := ln,
          email := rowGet r "email", department := dep, level := lvl }], none)
    | _, _, _, _, _ => ([], some .integrityError)

/-- Proof device: the rows `processRow` appends to the two tables and the
exception it raises, as a function of the two key lookups and the row. -/
def upsertsOf (uo : Option User) (so : Option Student) (r : Row) :
    List User × List Student × Option PyError :=
  match uo with
  | some u => ([], (studDelta u.username so r).1, (studDelta u.username so r).2)
  | none =>
    match rowGet r "reg_no", rowGet r "first_name", rowGet r "last_name",
        rowGet r "email" with
    | some un, some fn, some ln, some em =>
      ([{ username := un, first_name := fn, last_name := ln, email := em }],
       (studDelta un so r).1, (studDelta un so r).2)
    | _, _, _, _ => ([], [], some .integrityError)

/-- Key uniqueness invariants the backing store enforces. -/
def DB.Uniq (db : DB) : Prop :=
  (db.users.map User.username).Nodup ∧ (db.students.map Student.reg_no).Nodup

/-- Two stores holding the same rows, possibly in different insertion
order. -/
def DBequiv (db₁ db₂ : DB) : Prop :=
  List.Perm db₁.users db₂.users ∧ List.Perm db₁.students db₂.students

/-! Concrete inputs used by witnesses and counterexamples. -/

def hdrLine : List Nat := asciiBytes "reg_no,first_name,last_name,email,department,level"

def lineAda : List Nat := asciiBytes "S001,Ada,Lovelace,ada@x.com,CS,300"

def lineBob : List Nat := asciiBytes "S002,Bob,Burns,bob@x.com,EE,200"

def lineAdaShort : List Nat := asciiBytes "S001,Ada,Lovelace,ada@x.com"

def lineDan : List Nat := asciiBytes "S010,Dan,Day,dan@x.com,CS,100"

def lineEve : List Nat := asciiBytes "S011,Eve,Elm,eve@x.com,CS,200"

def rowAda : Row :=
  [("reg_no", some "S001"), ("first_name", some "Ada"),
   ("last_name", some "Lovelace"), ("email", some "ada@x.com"),
   ("department", some "CS"), ("level", some "300")]

def rowAdaVariant : Row :=
  [("reg_no", some "S001"), ("first_name", some "Augusta"),
   ("last_name", some "King"), ("email", some "aada@x.com"),
   ("department", some "Math"), ("level", some "400")]

def rowBob : Row :=
  [("reg_no", some "S002"), ("first_name", some "Bob"),
   ("last_name", some "Burns"), ("email", some "bob@x.com"),
   ("department", some "EE"), ("level", some "200")]

def rowNoEmail : Row :=
  [("reg_no", some "S004"), ("first_name", some "Fay"),
   ("last_name", some "Fox"), ("email", none),
   ("department", some "CS"), ("level", some "100")]

/-!
The faithful text layer.  `open(..., encoding="utf-8")` wraps the file
in a `TextIOWrapper` that pulls the byte stream in chunks (CPython
`TextIOWrapper._CHUNK_SIZE = 8192`; the buffered binary layer may hand
over 4096-byte pieces) and decodes each chunk strictly with an
incremental UTF-8 decoder: a multibyte sequence split across a chunk
boundary is buffered, an invalid sequence raises at the `readline` call
that decodes its chunk, and a truncated sequence at end of file raises
on the final decode.  `readline` therefore yields exactly the complete
lines of the text decoded so far; the `csv.DictReader` loop processes
those rows, and the `UnicodeDecodeError` surfaces at the read that
touches the bad chunk — after the rows of the earlier chunks, before
any row sharing a chunk with the malformed bytes.
-/

/-- Decode result of one UTF-8 sequence at the head of a chunk:
a code point with the remaining bytes, the pending bytes of an
incomplete (so far valid) final sequence, or a decode error. -/
inductive Utf8Step where
  | out (cp : Nat) (rest : List Nat)
  | fin (pend : List Nat)
  | bad
deriving DecidableEq

/-- First-continuation-byte range of a three-byte sequence (excludes
overlong encodings and surrogates). -/
def utf8First3 (b b₁ : Nat) : Bool :=
  if b == 0xE0 then decide (0xA0 ≤ b₁ && b₁ ≤ 0xBF)
  else if b == 0xED then decide (0x80 ≤ b₁ && b₁ ≤ 0x9F)
  else utf8Cont b₁

/-- First-continuation-byte range of a four-byte sequence (excludes
overlong encodings and values above 0x10FFFF). -/
def utf8First4 (b b₁ : Nat) : Bool :=
  if b == 0xF0 then decide (0x90 ≤ b₁ && b₁ ≤ 0xBF)
  else if b == 0xF4 then decide (0x80 ≤ b₁ && b₁ ≤ 0x8F)
  else utf8Cont b₁

/-- One step of the strict incremental UTF-8 decoder: classify the
sequence starting at byte `b` followed by `bs`. -/
def utf8Step (b : Nat) (bs : List Nat) : Utf8Step :=
  if b ≤ 0x7F then .out b bs
  else if 0xC2 ≤ b && b ≤ 0xDF then
    match bs with
    | [] => .fin [b]
    | b₁ :: rest =>
      if utf8Cont b₁ then .out ((b - 0xC0) * 0x40 + (b₁ - 0x80)) rest else .bad
  else if 0xE0 ≤ b && b ≤ 0xEF then
    match bs with
    | [] => .fin [b]
    | [b₁] => if utf8First3 b b₁ then .fin [b, b₁] else .bad
    | b₁ :: b₂ :: rest =>
      if utf8First3 b b₁ && utf8Cont b₂ then
        .out ((b - 0xE0) * 0x1000 + (b₁ - 0x80) * 0x40 + (b₂ - 0x80)) rest
      else .bad
  else if 0xF0 ≤ b && b ≤ 0xF4 then
    match bs with
    | [] => .fin [b]
    | [b₁] => if utf8First4 b b₁ then .fin [b, b₁] else .bad
    | [b₁, b₂] =>
      if utf8First4 b b₁ && utf8Cont b₂ then .fin [b, b₁, b₂] else .bad
    | b₁ :: b₂ :: b₃ :: rest =>
      if utf8First4 b b₁ && utf8Cont b₂ && utf8Cont b₃ then
        .out ((b - 0xF0) * 0x40000 + (b₁ - 0x80) * 0x1000 +
          (b₂ - 0x80) * 0x40 + (b₃ - 0x80)) rest
      else .bad
  else .bad

/-- One strict incremental decode pass over a byte chunk, accumulating
code points; tail recursive, fuelled by a list at least as long as the
input (each step consumes at least one byte).  Returns the decoded code
points plus the trailing bytes of an incomplete sequence, to be carried
into the next chunk; `none` is a `UnicodeDecodeError`. -/
def utf8DecodeFuel (acc : List Nat) : List Nat → List Nat → Option (List Nat × List Nat)
  | _, [] => some (acc.reverse, [])
  | [], _ :: _ => none
  | _ :: fuel, b :: bs =>
    match utf8Step b bs with
    | .out cp rest => utf8DecodeFuel (cp :: acc) fuel rest
    | .fin pend => some (acc.reverse, pend)
    | .bad => none

/-- `decoder.decode(chunk)` on one chunk. -/
def utf8DecodePart (bytes : List Nat) : Option (List Nat × List Nat) :=
  utf8DecodeFuel [] bytes bytes

/-- Split a byte stream into chunks of `n` bytes (the last one shorter).
The first list is fuel: one element is spent per chunk, and the stream
itself is always enough fuel for `1 ≤ n`. -/
def chunksOfAux (n : Nat) : List Nat → List Nat → List (List Nat)
  | [], l => if l.isEmpty then [] else [l]
  | _ :: fuel, l => if l.isEmpty then [] else l.take n :: chunksOfAux n fuel (l.drop n)

def chunksOf (n : Nat) (l : List Nat) : List (List Nat) :=
  if n == 0 then [l] else chunksOfAux n l l

/-- Feed the chunks to the incremental decoder in order: the decoded
code points of the chunks that decode, and whether the whole stream
decoded (`false` when a chunk raises, or when bytes of an incomplete
sequence remain at end of file). -/
def decodeStreamAux (pending : List Nat) : List (List Nat) → List Nat × Bool
  | [] => ([], pending.isEmpty)
  | c :: cs =>
    match utf8DecodePart (pending ++ c) with
    | none => ([], false)
    | some (cps, rest) =>
      let t := decodeStreamAux rest cs
      (cps ++ t.1, t.2)

def decodeStream (chunks : List (List Nat)) : List Nat × Bool :=
  decodeStreamAux [] chunks

/-- Split decoded text at newlines: the complete lines and the trailing
text not yet terminated by a newline. -/
def splitLinesLoop (cur : List Nat) (acc : List (List Nat)) :
    List Nat → List (List Nat) × List Nat
  | [] => (acc.reverse, cur.reverse)
  | c :: rest =>
    if c == 10 then splitLinesLoop [] (cur.reverse :: acc) rest
    else splitLinesLoop (c :: cur) acc rest

def splitAtNewlines (cps : List Nat) : List (List Nat) × List Nat :=
  splitLinesLoop [] [] cps

/-- The lines `readline` can yield before the stream ends or fails: all
complete lines of the decoded text, plus the unterminated trailing text
only when the stream decoded to its end (at end of file `readline`
returns it; before a failing chunk the next `readline` raises
instead). -/
def availableLines (cps : List Nat) (ok : Bool) : List (List Nat) :=
  let p := splitAtNewlines cps
  if ok && !p.2.isEmpty then p.1 ++ [p.2] else p.1

/-- `csv.reader` tokenisation of one decoded line (unquoted fields): a
blank line yields the empty record, which `DictReader` skips. -/
def tokenizeLine (cps : List Nat) : List String :=
  match cps with
  | [] => []
  | _ => (splitCommas cps).map cpsToString

/-- The `for row in reader` loop over the lines the reader can still
yield.  `ok = false` records that the stream fails to decode past these
lines: the loop then dies with `UnicodeDecodeError` at the read
following the last available row — unless a row exception aborts it
first. -/
def processData (db : DB) (header : List String) (ok : Bool) :
    List (List Nat) → DB × Option PyError
  | [] => (db, if ok then none else some PyError.decodeError)
  | lcps :: rest =>
    match tokenizeLine lcps with
    | [] => processData db header ok rest
    | f :: fs =>
      match processRow db (zipRow header (f :: fs)) with
      | (db₁, none) => processData db₁ header ok rest
      | (db₁, some e) => (db₁, some e)

/-- `process_students_csv` over the raw byte stream of the uploaded
file, at text-layer chunk granularity `chunkSize`: chunk the bytes,
decode incrementally, take the first available line as the header
(`DictReader.fieldnames`), loop over the remaining available rows. -/
def processStream (chunkSize : Nat) (db : DB) (stream : List Nat) :
    DB × Option PyError :=
  let dec := decodeStream (chunksOf chunkSize stream)
  match availableLines dec.1 dec.2 with
  | [] => (db, if dec.2 then none else some PyError.decodeError)
  | hcps :: data => processData db (tokenizeLine hcps) dec.2 data

/-- Join lines into one stream, newline-terminating each. -/
def joinNl (ls : List (List Nat)) : List Nat :=
  (ls.map (fun l => l ++ [10])).flatten

/-- Every byte is ASCII. -/
abbrev Ascii (l : List Nat) : Prop := ∀ b ∈ l, b ≤ 0x7F

/-- A 232-byte data row, wide enough that a few of them overflow one
text-layer chunk. -/
def cexRow (rn : String) : List Nat :=
  asciiBytes (rn ++ ",Ada,Lovelace,ada@x.com,") ++
    List.replicate 200 67 ++ asciiBytes ",300"

def cexRegs : List String :=
  ["S101", "S102", "S103", "S104", "S105", "S106", "S107", "S108", "S109",
   "S110", "S111", "S112", "S113", "S114", "S115", "S116", "S117", "S118",
   "S119", "S120", "S121", "S122", "S123", "S124", "S125", "S126", "S127",
   "S128", "S129", "S130", "S131", "S132", "S133", "S134"]

def cexLastRow : List Nat := cexRow "S135"

/-- Header plus 34 full rows: 50+1 + 34*233 = 7973 bytes. -/
def cexLines : List (List Nat) := hdrLine :: cexRegs.map cexRow

/-- The first 8192 bytes of the file: the 7973 bytes of complete lines
plus the first 219 bytes of the 35th row. -/
def streamA : List Nat := joinNl cexLines ++ cexLastRow.take 219

/-- The rest of the 35th row and its newline. -/
def streamB : List Nat := cexLastRow.drop 219 ++ [10]

/-- A 8207-byte upload: header, 35 rows, and one stray 0xFF byte at the
end.  The malformed byte sits beyond the first text-layer chunk. -/
def badTailStream : List Nat := streamA ++ (streamB ++ [0xFF])

/-- A 52-byte upload whose malformed byte shares the only chunk with
everything else. -/
def smallBadStream : List Nat := hdrLine ++ [10, 0xFF]

/-- Header and one row, then a malformed byte; at a 64-byte chunk
granularity the header is available and the row is cut off. -/
def midBadStream : List Nat := hdrLine ++ [10] ++ lineAda ++ [10, 0xFF]

theorem find?_append_some {α : Type} {p : α → Bool} {l₁ l₂ : List α} {a : α}
    (h : l₁.find? p = some a) : (l₁ ++ l₂).find? p = some a := by
  simp [List.find?_append, h]

theorem find?_append_none {α : Type} {p : α → Bool} {l₁ l₂ : List α}
    (h : l₁.find? p = none) : (l₁ ++ l₂).find? p = l₂.find? p := by
  simp [List.find?_append, h]

/-- `find?` does not depend on list order when at most one element can
satisfy the predicate. -/
theorem find?_eq_of_perm {α : Type} {p : α → Bool} {l₁ l₂ : List α}
    (hperm : List.Perm l₁ l₂)
    (huniq : ∀ a ∈ l₁, ∀ b ∈ l₁, p a → p b → a = b) :
    l₁.find? p = l₂.find? p := by
  cases h₁ : l₁.find? p with
  | none =>
    cases h₂ : l₂.find? p with
    | none => rfl
    | some b =>
      exact absurd (List.find?_some h₂)
        (List.find?_eq_none.mp h₁ b (hperm.mem_iff.mpr (List.mem_of_find?_eq_some h₂)))
  | some a =>
    cases h₂ : l₂.find? p with
    | none =>
      exact absurd (List.find?_some h₁)
        (List.find?_eq_none.mp h₂ a (hperm.mem_iff.mp (List.mem_of_find?_eq_some h₁)))
    | some b =>
      exact congrArg some (huniq a (List.mem_of_find?_eq_some h₁)
        b (hperm.mem_iff.mpr (List.mem_of_find?_eq_some h₂))
        (List.find?_some h₁) (List.find?_some h₂))

set_option maxHeartbeats 1000000 in
/-- Central characterisation of one loop iteration: `processRow` appends
the rows computed by `upsertsOf` from the two key lookups, and raises
the exception `upsertsOf` computes. -/
theorem processRow_eq (db : DB) (r : Row) :
    processRow db r =
      ({ users := db.users ++ (upsertsOf (findUser db (rowGet r "reg_no"))
            (findStudent db (rowGet r "reg_no")) r).1,
         students := db.students ++ (upsertsOf (findUser db (rowGet r "reg_no"))
            (findStudent db (rowGet r "reg_no")) r).2.1 },
       (upsertsOf (findUser db (rowGet r "reg_no"))
          (findStudent db (rowGet r "reg_no")) r).2.2) := by
  unfold processRow userGetOrCreate studentGetOrCreate upsertsOf studDelta
  cases h1 : rowGet r "reg_no" with
  | none => simp [findUser, findStudent, h1]
  | some rn =>
    simp only [findUser, findStudent, h1]
    cases hu : db.users.find? (fun u => u.username == rn) <;>
      cases hs : db.students.find? (fun s => s.reg_no == rn) <;>
        cases h2 : rowGet r "first_name" <;>
          cases h3 : rowGet r "last_name" <;>
            cases h4 : rowGet r "email" <;>
              cases h5 : rowGetD r "department" "" <;>
                cases h6 : rowGetD r "level" "" <;>
                  simp [hu, hs, h1, h2, h3, h4, h5, h6]

/-- Every user row the iteration appends carries the username looked up
from the row, and is only appended when that lookup missed. -/
theorem upsertsOf_users_sub (uo : Option User) (so : Option Student) (r : Row) :
    (upsertsOf uo so r).1 = [] ∨
      (uo = none ∧ ∃ u, (upsertsOf uo so r).1 = [u] ∧
        some u.username = rowGet r "reg_no") := by
  unfold upsertsOf
  cases uo with
  | some u => simp
  | none =>
    cases h1 : rowGet r "reg_no" <;> cases h2 : rowGet r "first_name" <;>
      cases h3 : rowGet r "last_name" <;> cases h4 : rowGet r "email" <;>
        simp [h1, h2, h3, h4]

/-- Every student row the iteration appends carries the reg_no looked up
from the row, and is only appended when that lookup missed. -/
theorem upsertsOf_students_sub (uo : Option User) (so : Option Student) (r : Row) :
    (upsertsOf uo so r).2.1 = [] ∨
      (so = none ∧ ∃ s, (upsertsOf uo so r).2.1 = [s] ∧
        some s.reg_no = rowGet r "reg_no") := by
  unfold upsertsOf studDelta
  cases uo with
  | some u =>
    cases so with
    | some s => simp
    | none =>
      cases h1 : rowGet r "reg_no" <;> cases h2 : rowGet r "first_name" <;>
        cases h3 : rowGet r "last_name" <;> cases h5 : rowGetD r "department" "" <;>
          cases h6 : rowGetD r "level" "" <;> simp [h1, h2, h3, h5, h6]
  | none =>
    cases so with
    | some s =>
      cases h1 : rowGet r "reg_no" <;> cases h2 : rowGet r "first_name" <;>
        cases h3 : rowGet r "last_name" <;> cases h4 : rowGet r "email" <;>
          simp [h1, h2, h3, h4]
    | none =>
      cases h1 : rowGet r "reg_no" <;> cases h2 : rowGet r "first_name" <;>
        cases h3 : rowGet r "last_name" <;> cases h4 : rowGet r "email" <;>
          cases h5 : rowGetD r "department" "" <;>
            cases h6 : rowGetD r "level" "" <;> simp [h1, h2, h3, h4, h5, h6]

theorem findUser_mk (ul : List User) (sl : List Student) (rn : String) :
    findUser { users := ul, students := sl } (some rn) =
      ul.find? (fun u => u.username == rn) := rfl

theorem findStudent_mk (ul : List User) (sl : List Student) (rn : String) :
    findStudent { users := ul, students := sl } (some rn) =
      sl.find? (fun s => s.reg_no == rn) := rfl

/-- Entities present before an iteration are still found after it. -/
theorem findUser_processRow {db : DB} {k : Option String} {u : User} (r : Row)
    (h : findUser db k = some u) : findUser (processRow db r).1 k = some u := by
  cases k with
  | none => simp [findUser] at h
  | some un =>
    rw [processRow_eq, findUser_mk]
    exact find?_append_some h

theorem findStudent_processRow {db : DB} {k : Option String} {s : Student} (r : Row)
    (h : findStudent db k = some s) : findStudent (processRow db r).1 k = some s := by
  cases k with
  | none => simp [findStudent] at h
  | some rn =>
    rw [processRow_eq, findStudent_mk]
    exact find?_append_some h

/-- A row whose key already has both entities is a pure no-op. -/
theorem processRow_hit {db : DB} {r : Row} {u : User} {s : Student}
    (hu : findUser db (rowGet r "reg_no") = some u)
    (hs : findStudent db (rowGet r "reg_no") = some s) :
    processRow db r = (db, none) := by
  rw [processRow_eq, hu, hs]
  simp [upsertsOf, studDelta]

set_option maxHeartbeats 1600000 in
/-- Re-running one iteration on its own output changes nothing and
raises the same exception: lookups that were hits stay hits, creations
became hits, and failed creations fail identically. -/
theorem processRow_replay (db : DB) (r : Row) :
    processRow (processRow db r).1 r = processRow db r := by
  rw [processRow_eq db r]
  rw [processRow_eq]
  cases h1 : rowGet r "reg_no" with
  | none => simp [upsertsOf, findUser, findStudent, h1]
  | some rn =>
    simp only [findUser_mk, findStudent_mk, findUser, findStudent, h1]
    cases hu : db.users.find? (fun u => u.username == rn) <;>
      cases hs : db.students.find? (fun s => s.reg_no == rn) <;>
        cases h2 : rowGet r "first_name" <;>
          cases h3 : rowGet r "last_name" <;>
            cases h4 : rowGet r "email" <;>
              cases h5 : rowGetD r "department" "" <;>
                cases h6 : rowGetD r "level" "" <;>
                  simp [upsertsOf, studDelta, List.find?_append, hu, hs,
                        h1, h2, h3, h4, h5, h6]

set_option maxHeartbeats 1600000 in
/-- After a successful iteration both entities for the row key exist. -/
theorem processRow_success {db : DB} {r : Row}
    (h : (processRow db r).2 = none) :
    ∃ rn, rowGet r "reg_no" = some rn ∧
      (∃ u, findUser (processRow db r).1 (some rn) = some u) ∧
      (∃ s, findStudent (processRow db r).1 (some rn) = some s) := by
  rw [processRow_eq] at h ⊢
  cases h1 : rowGet r "reg_no" with
  | none =>
    rw [h1] at h
    simp [upsertsOf, findUser, h1] at h
  | some rn =>
    rw [h1] at h
    refine ⟨rn, rfl, ?_, ?_⟩ <;>
      simp only [findUser_mk, findStudent_mk, findUser, findStudent] at h ⊢ <;>
        revert h <;>
          cases hu : db.users.find? (fun u => u.username == rn) <;>
            cases hs : db.students.find? (fun s => s.reg_no == rn) <;>
              cases h2 : rowGet r "first_name" <;>
                cases h3 : rowGet r "last_name" <;>
                  cases h4 : rowGet r "email" <;>
                    cases h5 : rowGetD r "department" "" <;>
                      cases h6 : rowGetD r "level" "" <;>
                        (intro h; simp [upsertsOf, studDelta, List.find?_append, hu, hs,
                          h1, h2, h3, h4, h5, h6] at h ⊢)

set_option maxHeartbeats 1600000 in
/-- One iteration preserves the unique constraints of both tables. -/
theorem processRow_uniq {db : DB} (r : Row) (h : DB.Uniq db) :
    DB.Uniq (processRow db r).1 := by
  obtain ⟨h₁, h₂⟩ := h
  rw [processRow_eq]
  constructor
  · rcases upsertsOf_users_sub (findUser db (rowGet r "reg_no"))
        (findStudent db (rowGet r "reg_no")) r with hnil | ⟨huo, u, hone, hkey⟩
    · simp [hnil, h₁]
    · rw [hone]
      have hrow : rowGet r "reg_no" = some u.username := hkey.symm
      rw [hrow] at huo
      have hnone : ∀ a ∈ db.users, ¬(a.username == u.username) = true := by
        intro a ha
        exact List.find?_eq_none.mp huo a ha
      have hmem : u.username ∉ db.users.map User.username := by
        simp only [List.mem_map]
        rintro ⟨a, ha, hau⟩
        exact hnone a ha (by simp [hau])
      simp [List.nodup_append, h₁, hmem]
  · rcases upsertsOf_students_sub (findUser db (rowGet r "reg_no"))
        (findStudent db (rowGet r "reg_no")) r with hnil | ⟨hso, s, hone, hkey⟩
    · simp [hnil, h₂]
    · rw [hone]
      have hrow : rowGet r "reg_no" = some s.reg_no := hkey.symm
      rw [hrow] at hso
      have hnone : ∀ a ∈ db.students, ¬(a.reg_no == s.reg_no) = true := by
        intro a ha
        exact List.find?_eq_none.mp hso a ha
      have hmem : s.reg_no ∉ db.students.map Student.reg_no := by
        simp only [List.mem_map]
        rintro ⟨a, ha, hau⟩
        exact hnone a ha (by simp [hau])
      simp [List.nodup_append, h₂, hmem]

/-- Entities present in the store survive the rest of the stream. -/
theorem findUser_processCsvData (header : List String) (lines : List (List Nat)) :
    ∀ {db : DB} {k : Option String} {u : User}, findUser db k = some u →
      findUser (processCsvData db header lines).1 k = some u := by
  induction lines with
  | nil => intro db k u h; exact h
  | cons line rest ih =>
    intro db k u h
    cases hp : parseLine line with
    | none => simpa [processCsvData, hp] using h
    | some fields =>
      cases fields with
      | nil => simpa [processCsvData, hp] using ih h
      | cons f fs =>
        simp only [processCsvData, hp]
        cases hrow : processRow db (zipRow header (f :: fs)) with
        | mk db₁ eo =>
          have hmono : findUser db₁ k = some u := by
            have := findUser_processRow (zipRow header (f :: fs)) h
            rwa [hrow] at this
          cases eo with
          | none => exact ih hmono
          | some e => exact hmono

theorem findStudent_processCsvData (header : List String) (lines : List (List Nat)) :
    ∀ {db : DB} {k : Option String} {s : Student}, findStudent db k = some s →
      findStudent (processCsvData db header lines).1 k = some s := by
  induction lines with
  | nil => intro db k s h; exact h
  | cons line rest ih =>
    intro db k s h
    cases hp : parseLine line with
    | none => simpa [processCsvData, hp] using h
    | some fields =>
      cases fields with
      | nil => simpa [processCsvData, hp] using ih h
      | cons f fs =>
        simp only [processCsvData, hp]
        cases hrow : processRow db (zipRow header (f :: fs)) with
        | mk db₁ eo =>
          have hmono : findStudent db₁ k = some s := by
            have := findStudent_processRow (zipRow header (f :: fs)) h
            rwa [hrow] at this
          cases eo with
          | none => exact ih hmono
          | some e => exact hmono

/-- Re-running the row loop on its own output is a no-op with the same
outcome: every row it reaches is a double hit, and the aborting step
fails identically. -/
theorem processCsvData_replay (header : List String) (lines : List (List Nat)) :
    ∀ db : DB,
      processCsvData (processCsvData db header lines).1 header lines =
        processCsvData db header lines := by
  induction lines with
  | nil => intro db; rfl
  | cons line rest ih =>
    intro db
    cases hp : parseLine line with
    | none => simp [processCsvData, hp]
    | some fields =>
      cases fields with
      | nil => simp only [processCsvData, hp]; exact ih db
      | cons f fs =>
        simp only [processCsvData, hp]
        cases hrow : processRow db (zipRow header (f :: fs)) with
        | mk db₁ eo =>
          cases eo with
          | none =>
            have hsucc : (processRow db (zipRow header (f :: fs))).2 = none := by
              rw [hrow]
            obtain ⟨rn, hrn, ⟨u, hu⟩, ⟨s, hs⟩⟩ := processRow_success hsucc
            rw [hrow] at hu hs
            have hu₂ : findUser (processCsvData db₁ header rest).1 (some rn) = some u :=
              findUser_processCsvData header rest hu
            have hs₂ : findStudent (processCsvData db₁ header rest).1 (some rn) = some s :=
              findStudent_processCsvData header rest hs
            have hhit : processRow (processCsvData db₁ header rest).1
                (zipRow header (f :: fs)) =
                ((processCsvData db₁ header rest).1, none) :=
              @processRow_hit (processCsvData db₁ header rest).1
                (zipRow header (f :: fs)) u s (by rwa [hrn]) (by rwa [hrn])
            rw [hhit]
            exact ih db₁
          | some e =>
            have hrep := processRow_replay db (zipRow header (f :: fs))
            rw [hrow] at hrep
            rw [hrep]

/-- The whole task, re-run on the store it produced, changes nothing and
ends the same way. -/
theorem processCsv_replay (db : DB) (lines : List (List Nat)) :
    processCsv (processCsv db lines).1 lines = processCsv db lines := by
  cases lines with
  | nil => rfl
  | cons hline rest =>
    cases hp : parseLine hline with
    | none => simp [processCsv, hp]
    | some header =>
      simp only [processCsv, hp]
      exact processCsvData_replay header rest db

/-- The row loop preserves the unique constraints. -/
theorem processCsvData_uniq (header : List String) (lines : List (List Nat)) :
    ∀ db : DB, DB.Uniq db → DB.Uniq (processCsvData db header lines).1 := by
  induction lines with
  | nil => intro db h; exact h
  | cons line rest ih =>
    intro db h
    cases hp : parseLine line with
    | none => simpa [processCsvData, hp] using h
    | some fields =>
      cases fields with
      | nil => simpa [processCsvData, hp] using ih db h
      | cons f fs =>
        simp only [processCsvData, hp]
        cases hrow : processRow db (zipRow header (f :: fs)) with
        | mk db₁ eo =>
          have huniq : DB.Uniq db₁ := by
            have := processRow_uniq (zipRow header (f :: fs)) h
            rwa [hrow] at this
          cases eo with
          | none => exact ih db₁ huniq
          | some e => exact huniq

theorem processCsv_uniq (db : DB) (lines : List (List Nat)) (h : DB.Uniq db) :
    DB.Uniq (processCsv db lines).1 := by
  cases lines with
  | nil => exact h
  | cons hline rest =>
    cases hp : parseLine hline with
    | none => simpa [processCsv, hp] using h
    | some header =>
      simp only [processCsv, hp]
      exact processCsvData_uniq header rest db h

/-- The abort shape of the row loop: once a row raises, the loop result
is exactly that iteration, whatever rows follow. -/
theorem processRows_abort (pre : List Row) (r : Row) (rest : List Row) :
    ∀ db : DB, (processRows db pre).2 = none →
      ((processRow (processRows db pre).1 r).2).isSome = true →
      processRows db (pre ++ r :: rest) = processRow (processRows db pre).1 r := by
  induction pre with
  | nil =>
    intro db _ herr
    rw [List.nil_append]
    show processRows db (r :: rest) = processRow db r
    have hred : (processRows db []).1 = db := rfl
    rw [hred] at herr
    cases hrow : processRow db r with
    | mk db₁ eo =>
      rw [hrow] at herr
      cases eo with
      | none => simp at herr
      | some e => simp [processRows, hrow]
  | cons p pre ih =>
    intro db hpre herr
    simp only [List.cons_append, processRows]
    cases hrow : processRow db p with
    | mk db₁ eo =>
      cases eo with
      | none =>
        have hpre₁ : (processRows db₁ pre).2 = none := by
          simpa [processRows, hrow] using hpre
        have herr₁ : ((processRow (processRows db₁ pre).1 r).2).isSome = true := by
          simpa [processRows, hrow] using herr
        simpa [processRows, hrow] using ih db₁ hpre₁ herr₁
      | some e =>
        simp [processRows, hrow] at hpre

/-- C5 counterexample. The claim expects a terminal Status answer to
carry the accumulated batch report; the view answers with a body of
exactly the keys `task_id` and `status`, so no `report` key is ever
present, even for a succeeded job. -/
theorem get_task_status_has_no_report_key :
    (get_task_status [("0be55cb2", TaskState.SUCCESS)] "0be55cb2").body.map
        Prod.fst = ["task_id", "status"] ∧
      "report" ∉ (get_task_status [("0be55cb2", TaskState.SUCCESS)]
        "0be55cb2").body.map Prod.fst := by
  decide

/-- C5 amended: the worker accumulates no counters and the Status view
returns, for every backend state and every task id, only the task id and
the bare state string. -/
theorem get_task_status_body_shape
    (backend : List (String × TaskState)) (taskId : String) :
    get_task_status backend taskId =
      { statusCode := 200,
        body := [("task_id", taskId),
                 ("status", (asyncResultStatus backend taskId).label)] } := rfl

/-- C9 counterexample. A Status query for an identifier the backend has
never seen answers HTTP 200 with state PENDING, not a client error. -/
theorem get_task_status_unknown_id_is_200_pending :
    (get_task_status [] "no-such-task").statusCode = 200 ∧
      (get_task_status [] "no-such-task").body =
        [("task_id", "no-such-task"), ("status", "PENDING")] := by
  decide

/-- C9 amended: for every identifier absent from the result backend the
Status view returns HTTP 200 with state PENDING — indistinguishable from
a queued job, with no NotFoundError surfaced. -/
theorem get_task_status_unknown_id (backend : List (String × TaskState))
    (taskId : String) (h : backend.lookup taskId = none) :
    get_task_status backend taskId =
      { statusCode := 200,
        body := [("task_id", taskId), ("status", "PENDING")] } := by
  simp [get_task_status, asyncResultStatus, h, TaskState.label]

/-- C9 amended witness at a concrete unknown identifier. -/
theorem get_task_status_unknown_id_witness :
    get_task_status [("a1b2", TaskState.SUCCESS)] "zzzz" =
      { statusCode := 200,
        body := [("task_id", "zzzz"), ("status", "PENDING")] } :=
  get_task_status_unknown_id [("a1b2", TaskState.SUCCESS)] "zzzz" (by decide)

/-- C10: a Submit request with no file part is answered with HTTP 400 and
the advertised error message, and neither the media store nor the queue
changes. -/
theorem upload_no_file_rejected_state_unchanged (st : ServerState)
    (newTaskId : String) :
    upload_students_csv st none newTaskId =
      (st, { statusCode := 400,
             body := [("error", "CSV file is required.")] }) := rfl

/-- C3: on a key hit both upserts return the existing entity with every
field unchanged and leave the store untouched, whatever defaults the row
supplies: first write wins. -/
theorem upsert_hit_first_write_wins (db : DB) (k : String) (u : User)
    (s : Student) (hu : findUser db (some k) = some u)
    (hs : findStudent db (some k) = some s) :
    (∀ fn ln em, userGetOrCreate db (some k) fn ln em = .ok (db, u, false)) ∧
    (∀ uref fn ln em dep lvl,
      studentGetOrCreate db (some k) uref fn ln em dep lvl = .ok (db, s, false)) ∧
    (∀ r : Row, rowGet r "reg_no" = some k → processRow db r = (db, none)) := by
  refine ⟨?_, ?_, ?_⟩
  · intro fn ln em
    simp [userGetOrCreate, hu]
  · intro uref fn ln em dep lvl
    simp [studentGetOrCreate, hs]
  · intro r hr
    exact processRow_hit (hr ▸ hu) (hr ▸ hs)

/-- C3 witness: a store already holding Ada, re-offered a row with the
same reg_no and different defaults, is returned unchanged. -/
theorem upsert_hit_first_write_wins_witness :
    userGetOrCreate
        { users := [{ username := "S001", first_name := "Ada",
                      last_name := "Lovelace", email := "ada@x.com" }],
          students := [{ user := some "S001", reg_no := "S001",
                         first_name := "Ada", last_name := "Lovelace",
                         email := some "ada@x.com", department := "CS",
                         level := "300" }] }
        (some "S001") (some "Augusta") (some "King") (some "aug@x.com") =
      .ok ({ users := [{ username := "S001", first_name := "Ada",
                         last_name := "Lovelace", email := "ada@x.com" }],
             students := [{ user := some "S001", reg_no := "S001",
                            first_name := "Ada", last_name := "Lovelace",
                            email := some "ada@x.com", department := "CS",
                            level := "300" }] },
        { username := "S001", first_name := "Ada", last_name := "Lovelace",
          email := "ada@x.com" }, false) :=
  (upsert_hit_first_write_wins
    { users := [{ username := "S001", first_name := "Ada",
                  last_name := "Lovelace", email := "ada@x.com" }],
      students := [{ user := some "S001", reg_no := "S001",
                     first_name := "Ada", last_name := "Lovelace",
                     email := some "ada@x.com", department := "CS",
                     level := "300" }] }
    "S001"
    { username := "S001", first_name := "Ada", last_name := "Lovelace",
      email := "ada@x.com" }
    { user := some "S001", reg_no := "S001", first_name := "Ada",
      last_name := "Lovelace", email := some "ada@x.com", department := "CS",
      level := "300" }
    (by decide) (by decide)).1 (some "Augusta") (some "King") (some "aug@x.com")

/-- C2: re-running the task on the same byte stream over the store the
first run produced reproduces exactly the same store and outcome — every
entity is reused, none is created — and the unique constraint on reg_no
(at most one profile per reg_no) is preserved. -/
theorem duplicate_submission_idempotent (db : DB) (lines : List (List Nat)) :
    processCsv (processCsv db lines).1 lines = processCsv db lines ∧
      (DB.Uniq db → DB.Uniq (processCsv db lines).1) := by
  exact ⟨processCsv_replay db lines, processCsv_uniq db lines⟩

/-- C2 witness on a concrete two-row file starting from the empty store. -/
theorem duplicate_submission_idempotent_witness :
    processCsv (processCsv emptyDB [hdrLine, lineAda, lineBob]).1
        [hdrLine, lineAda, lineBob] =
      processCsv emptyDB [hdrLine, lineAda, lineBob] ∧
    DB.Uniq (processCsv emptyDB [hdrLine, lineAda, lineBob]).1 := by
  refine ⟨(duplicate_submission_idempotent emptyDB [hdrLine, lineAda, lineBob]).1,
    (duplicate_submission_idempotent emptyDB [hdrLine, lineAda, lineBob]).2 ?_⟩
  constructor <;> decide

/-- A column absent from the header is absent from every produced row. -/
theorem zipRow_lookup_not_mem (header : List String) (fields : List String)
    {col : String} (h : col ∉ header) :
    (zipRow header fields).lookup col = none := by
  induction header generalizing fields with
  | nil => rfl
  | cons hd tl ih =>
    have hne : col ≠ hd := fun hc => h (hc ▸ List.mem_cons_self hd tl)
    have hb : (col == hd) = false := beq_eq_false_iff_ne.mpr hne
    cases fields with
    | nil =>
      simp only [zipRow, List.lookup, hb]
      exact ih [] (fun hc => h (List.mem_cons_of_mem hd hc))
    | cons f fs =>
      simp only [zipRow, List.lookup, hb]
      exact ih fs (fun hc => h (List.mem_cons_of_mem hd hc))

/-- A header column beyond the end of a short record is padded with the
Python value `None` (`restval`), not dropped. -/
theorem zipRow_lookup_short (header : List String) (fields : List String)
    {col : String} (hnd : header.Nodup)
    (h : col ∈ header.drop fields.length) :
    (zipRow header fields).lookup col = some none := by
  induction header generalizing fields with
  | nil => simp at h
  | cons hd tl ih =>
    cases fields with
    | nil =>
      simp only [List.length_nil, List.drop_zero] at h
      rcases List.mem_cons.mp h with hc | hc
      · have hb : (col == hd) = true := by simp [hc]
        simp only [zipRow, List.lookup, hb]
      · have hne : col ≠ hd := by
          rintro rfl
          exact (List.nodup_cons.mp hnd).1 hc
        have hb : (col == hd) = false := beq_eq_false_iff_ne.mpr hne
        simp only [zipRow, List.lookup, hb]
        exact ih [] (List.nodup_cons.mp hnd).2 (by simpa using hc)
    | cons f fs =>
      simp only [List.length_cons, List.drop_succ_cons] at h
      have hmem : col ∈ tl := List.mem_of_mem_drop h
      have hne : col ≠ hd := by
        rintro rfl
        exact (List.nodup_cons.mp hnd).1 hmem
      have hb : (col == hd) = false := beq_eq_false_iff_ne.mpr hne
      simp only [zipRow, List.lookup, hb]
      exact ih fs (List.nodup_cons.mp hnd).2 h

/-- A row with no reg_no value fails immediately at the account upsert:
the username lookup misses (NULL matches nothing) and the insert of a
NULL username is rejected. -/
theorem processRow_no_reg (db : DB) (r : Row)
    (h : rowGet r "reg_no" = none) :
    processRow db r = (db, some PyError.integrityError) := by
  rw [processRow_eq, h]
  simp [upsertsOf, findUser, findStudent, h]

/-- Locality: an iteration for one key does not disturb account lookups
of a different key. -/
theorem findUser_processRow_other (db : DB) (r : Row) (un : String)
    (hk : some un ≠ rowGet r "reg_no") :
    findUser (processRow db r).1 (some un) = findUser db (some un) := by
  rw [processRow_eq, findUser_mk]
  have hdef : findUser db (some un) = db.users.find? (fun u => u.username == un) := rfl
  rw [hdef]
  rcases upsertsOf_users_sub (findUser db (rowGet r "reg_no"))
      (findStudent db (rowGet r "reg_no")) r with hnil | ⟨_, u, hone, hkey⟩
  · rw [hnil, List.append_nil]
  · rw [hone]
    cases hf : db.users.find? (fun u => u.username == un) with
    | some a => exact find?_append_some hf
    | none =>
      rw [find?_append_none hf]
      have hne : u.username ≠ un := fun hc => hk (hc ▸ hkey)
      have hb : (u.username == un) = false := beq_eq_false_iff_ne.mpr hne
      simp [List.find?, hb]

/-- Locality: an iteration for one key does not disturb profile lookups
of a different key. -/
theorem findStudent_processRow_other (db : DB) (r : Row) (rn : String)
    (hk : some rn ≠ rowGet r "reg_no") :
    findStudent (processRow db r).1 (some rn) = findStudent db (some rn) := by
  rw [processRow_eq, findStudent_mk]
  have hdef : findStudent db (some rn) = db.students.find? (fun s => s.reg_no == rn) := rfl
  rw [hdef]
  rcases upsertsOf_students_sub (findUser db (rowGet r "reg_no"))
      (findStudent db (rowGet r "reg_no")) r with hnil | ⟨_, s, hone, hkey⟩
  · rw [hnil, List.append_nil]
  · rw [hone]
    cases hf : db.students.find? (fun s => s.reg_no == rn) with
    | some a => exact find?_append_some hf
    | none =>
      rw [find?_append_none hf]
      have hne : s.reg_no ≠ rn := fun hc => hk (hc ▸ hkey)
      have hb : (s.reg_no == rn) = false := beq_eq_false_iff_ne.mpr hne
      simp [List.find?, hb]

/-- Stores with the same rows in any order answer account lookups
identically, given the unique constraint. -/
theorem findUser_congr {db₁ db₂ : DB} (h : DBequiv db₁ db₂)
    (huq : (db₁.users.map User.username).Nodup) (k : Option String) :
    findUser db₁ k = findUser db₂ k := by
  cases k with
  | none => rfl
  | some un =>
    refine find?_eq_of_perm h.1 ?_
    intro a ha b hb hpa hpb
    exact List.inj_on_of_nodup_map huq ha hb
      ((eq_of_beq hpa).trans (eq_of_beq hpb).symm)

theorem findStudent_congr {db₁ db₂ : DB} (h : DBequiv db₁ db₂)
    (huq : (db₁.students.map Student.reg_no).Nodup) (k : Option String) :
    findStudent db₁ k = findStudent db₂ k := by
  cases k with
  | none => rfl
  | some rn =>
    refine find?_eq_of_perm h.2 ?_
    intro a ha b hb hpa hpb
    exact List.inj_on_of_nodup_map huq ha hb
      ((eq_of_beq hpa).trans (eq_of_beq hpb).symm)

theorem DBequiv.uniq {db₁ db₂ : DB} (h : DBequiv db₁ db₂) (hq : DB.Uniq db₁) :
    DB.Uniq db₂ :=
  ⟨((h.1.map User.username).nodup_iff).mp hq.1,
   ((h.2.map Student.reg_no).nodup_iff).mp hq.2⟩

/-- One iteration behaves identically over equivalent stores. -/
theorem processRow_congr {db₁ db₂ : DB} (r : Row) (h : DBequiv db₁ db₂)
    (huq : DB.Uniq db₁) :
    (processRow db₁ r).2 = (processRow db₂ r).2 ∧
      DBequiv (processRow db₁ r).1 (processRow db₂ r).1 := by
  rw [processRow_eq db₁ r, processRow_eq db₂ r]
  rw [← findUser_congr h huq.1 (rowGet r "reg_no"),
      ← findStudent_congr h huq.2 (rowGet r "reg_no")]
  exact ⟨rfl, h.1.append_right _, h.2.append_right _⟩

/-- The row loop behaves identically over equivalent stores. -/
theorem processRows_congr (rows : List Row) :
    ∀ {db₁ db₂ : DB}, DBequiv db₁ db₂ → DB.Uniq db₁ →
      (processRows db₁ rows).2 = (processRows db₂ rows).2 ∧
        DBequiv (processRows db₁ rows).1 (processRows db₂ rows).1 := by
  induction rows with
  | nil => intro db₁ db₂ h _; exact ⟨rfl, h⟩
  | cons r rs ih =>
    intro db₁ db₂ h huq
    obtain ⟨he, hq⟩ := processRow_congr r h huq
    cases h₁ : processRow db₁ r with
    | mk d₁ o₁ =>
      cases h₂ : processRow db₂ r with
      | mk d₂ o₂ =>
        rw [h₁, h₂] at he hq
        simp only at he hq
        have hu₁ : DB.Uniq d₁ := by
          have := processRow_uniq r huq
          rwa [h₁] at this
        cases o₁ with
        | none =>
          cases o₂ with
          | none =>
            simp only [processRows, h₁, h₂]
            exact ih hq hu₁
          | some e => exact absurd he (by simp)
        | some e =>
          cases o₂ with
          | none => exact absurd he (by simp)
          | some e₂ =>
            simp only [processRows, h₁, h₂]
            exact ⟨by rw [he], hq⟩

theorem processRows_cons_ok {db : DB} {r : Row} {rs : List Row}
    (h : (processRows db (r :: rs)).2 = none) :
    (processRow db r).2 = none ∧
      (processRows (processRow db r).1 rs).2 = none := by
  cases hrow : processRow db r with
  | mk d o =>
    cases o with
    | none =>
      refine ⟨rfl, ?_⟩
      simpa [processRows, hrow] using h
    | some e => exact absurd h (by simp [processRows, hrow])

theorem processRows_cons_step {db : DB} {r : Row} {rs : List Row}
    (h : (processRow db r).2 = none) :
    processRows db (r :: rs) = processRows (processRow db r).1 rs := by
  cases hrow : processRow db r with
  | mk d o =>
    rw [hrow] at h
    cases o with
    | none => simp [processRows, hrow]
    | some e => simp at h

/-- Two successful consecutive iterations with distinct keys commute:
the swapped order also succeeds and produces the same set of rows. -/
theorem processRow_swap {db : DB} {r₁ r₂ : Row}
    (hk : rowGet r₁ "reg_no" ≠ rowGet r₂ "reg_no")
    (h₁ : (processRow db r₁).2 = none)
    (h₂ : (processRow (processRow db r₁).1 r₂).2 = none) :
    (processRow db r₂).2 = none ∧
      (processRow (processRow db r₂).1 r₁).2 = none ∧
      DBequiv (processRow (processRow db r₂).1 r₁).1
        (processRow (processRow db r₁).1 r₂).1 := by
  obtain ⟨un₁, hrn₁, _, _⟩ := processRow_success h₁
  obtain ⟨un₂, hrn₂, _, _⟩ := processRow_success h₂
  have hne₂₁ : some un₂ ≠ rowGet r₁ "reg_no" := by
    intro hc
    exact hk (by rw [hrn₂, ← hc])
  have hne₁₂ : some un₁ ≠ rowGet r₂ "reg_no" := by
    intro hc
    exact hk (by rw [hrn₁, hc])
  have hu₂ : findUser (processRow db r₁).1 (some un₂) = findUser db (some un₂) :=
    findUser_processRow_other db r₁ un₂ hne₂₁
  have hs₂ : findStudent (processRow db r₁).1 (some un₂) = findStudent db (some un₂) :=
    findStudent_processRow_other db r₁ un₂ hne₂₁
  have e₂ : (processRow db r₂).2 = none := by
    rw [processRow_eq (processRow db r₁).1 r₂, hrn₂, hu₂, hs₂] at h₂
    rw [processRow_eq db r₂, hrn₂]
    exact h₂
  have hu₁ : findUser (processRow db r₂).1 (some un₁) = findUser db (some un₁) :=
    findUser_processRow_other db r₂ un₁ hne₁₂
  have hs₁ : findStudent (processRow db r₂).1 (some un₁) = findStudent db (some un₁) :=
    findStudent_processRow_other db r₂ un₁ hne₁₂
  have e₁ : (processRow (processRow db r₂).1 r₁).2 = none := by
    rw [processRow_eq (processRow db r₂).1 r₁, hrn₁, hu₁, hs₁]
    rw [processRow_eq db r₁, hrn₁] at h₁
    exact h₁
  refine ⟨e₂, e₁, ?_⟩
  rw [processRow_eq (processRow db r₂).1 r₁, hrn₁, hu₁, hs₁]
  rw [processRow_eq (processRow db r₁).1 r₂, hrn₂, hu₂, hs₂]
  rw [processRow_eq db r₁, hrn₁, processRow_eq db r₂, hrn₂]
  constructor
  · simp only [List.append_assoc]
    exact List.perm_append_comm.append_left db.users
  · simp only [List.append_assoc]
    exact List.perm_append_comm.append_left db.students

/-- Processing any permutation of a successfully processed batch of
pairwise-distinct keys also succeeds and yields the same set of rows in
both tables. -/
theorem processRows_perm {rows₁ rows₂ : List Row} (hp : List.Perm rows₁ rows₂) :
    ∀ db : DB, DB.Uniq db →
      (rows₁.map (fun r => rowGet r "reg_no")).Nodup →
      (processRows db rows₁).2 = none →
      (processRows db rows₂).2 = none ∧
        DBequiv (processRows db rows₂).1 (processRows db rows₁).1 := by
  induction hp with
  | nil =>
    intro db _ _ h
    exact ⟨h, List.Perm.refl _, List.Perm.refl _⟩
  | cons x h ih =>
    intro db huq hnd hok
    obtain ⟨hx0, hrest⟩ := processRows_cons_ok hok
    have hu₁ : DB.Uniq (processRow db x).1 := processRow_uniq x huq
    have hnd₁ := by rw [List.map_cons] at hnd; exact (List.nodup_cons.mp hnd).2
    obtain ⟨ha, hb⟩ := ih (processRow db x).1 hu₁ hnd₁ hrest
    constructor
    · rw [processRows_cons_step hx0]
      exact ha
    · rw [processRows_cons_step hx0, processRows_cons_step hx0]
      exact hb
  | swap x y l =>
    intro db huq hnd hok
    obtain ⟨hy, hrest⟩ := processRows_cons_ok hok
    obtain ⟨hx, hl⟩ := processRows_cons_ok hrest
    have hkey : rowGet y "reg_no" ≠ rowGet x "reg_no" := by
      rw [List.map_cons, List.map_cons] at hnd
      have hni := (List.nodup_cons.mp hnd).1
      intro hc
      exact hni (by rw [hc]; exact List.mem_cons_self _ _)
    obtain ⟨ex, ey, heqv⟩ := processRow_swap hkey hy hx
    have huq_xy : DB.Uniq (processRow (processRow db x).1 y).1 :=
      processRow_uniq y (processRow_uniq x huq)
    obtain ⟨hce, hcq⟩ := processRows_congr l heqv huq_xy
    constructor
    · rw [processRows_cons_step ex, processRows_cons_step ey, hce]
      exact hl
    · rw [processRows_cons_step ex, processRows_cons_step ey,
          processRows_cons_step hy, processRows_cons_step hx]
      exact hcq
  | trans h₁ h₂ ih₁ ih₂ =>
    intro db huq hnd hok
    obtain ⟨ho₂, hq₂⟩ := ih₁ db huq hnd hok
    have hnd₂ := ((h₁.map (fun r => rowGet r "reg_no")).nodup_iff).mp hnd
    obtain ⟨ho₃, hq₃⟩ := ih₂ db huq hnd₂ ho₂
    exact ⟨ho₃, hq₃.1.trans hq₂.1, hq₃.2.trans hq₂.2⟩

theorem parseLine_isSome {l : List Nat} (h : (utf8Decode l).isSome = true) :
    ∃ fields, parseLine l = some fields := by
  cases hu : utf8Decode l with
  | none => rw [hu] at h; simp at h
  | some cps =>
    unfold parseLine
    rw [hu]
    cases cps with
    | nil => exact ⟨[], rfl⟩
    | cons c cs => exact ⟨_, rfl⟩

/-- The reader performs no header validation: when the improvised header
has no reg_no column, every produced row carries `None` for reg_no and
the first data row aborts the task at the account upsert, leaving the
store untouched. -/
theorem processCsvData_no_reg (header : List String) (hreg : "reg_no" ∉ header) :
    ∀ (rest : List (List Nat)) (db : DB),
      (∀ l ∈ rest, (utf8Decode l).isSome = true) →
      (∃ l ∈ rest, ∃ f fs, parseLine l = some (f :: fs)) →
      processCsvData db header rest = (db, some PyError.integrityError) := by
  intro rest
  induction rest with
  | nil => intro db _ hex; simp at hex
  | cons l rest ih =>
    intro db hdec hex
    obtain ⟨fields, hpf⟩ := parseLine_isSome (hdec l (List.mem_cons_self _ _))
    cases fields with
    | nil =>
      have hex₀ : ∃ x ∈ rest, ∃ f fs, parseLine x = some (f :: fs) := by
        obtain ⟨x, hx, f, fs, hpx⟩ := hex
        rcases List.mem_cons.mp hx with rfl | hx₀
        · rw [hpf] at hpx
          simp at hpx
        · exact ⟨x, hx₀, f, fs, hpx⟩
      have hdec₀ : ∀ x ∈ rest, (utf8Decode x).isSome = true :=
        fun x hx => hdec x (List.mem_cons_of_mem _ hx)
      simp only [processCsvData, hpf]
      exact ih db hdec₀ hex₀
    | cons f fs =>
      have hrg : rowGet (zipRow header (f :: fs)) "reg_no" = none := by
        simp [rowGet, zipRow_lookup_not_mem header (f :: fs) hreg]
      simp only [processCsvData, hpf]
      rw [processRow_no_reg db (zipRow header (f :: fs)) hrg]

set_option maxHeartbeats 1000000 in
/-- When the row has no department value the profile insert is rejected
(NULL in a NOT NULL column) and no student row is appended, whatever the
account side did. -/
theorem upsertsOf_dep_none (uo : Option User) (r : Row)
    (h : rowGetD r "department" "" = none) :
    (upsertsOf uo none r).2.1 = [] ∧
      (upsertsOf uo none r).2.2 = some PyError.integrityError := by
  unfold upsertsOf studDelta
  cases uo <;>
    cases h1 : rowGet r "reg_no" <;>
      cases h2 : rowGet r "first_name" <;>
        cases h3 : rowGet r "last_name" <;>
          cases h4 : rowGet r "email" <;>
            cases h6 : rowGetD r "level" "" <;>
              simp [h1, h2, h3, h4, h, h6]

/-- C1 counterexample.  The first row (a short row with no email value)
fails its account upsert; the task raises instead of recording the
failure, the store stays empty, and the valid second row (reg_no S002)
is never processed. -/
theorem failed_row_not_recorded_and_rest_skipped :
    (processRows emptyDB [rowNoEmail, rowBob]).2 = some PyError.integrityError ∧
      (processRows emptyDB [rowNoEmail, rowBob]).1 = emptyDB ∧
      findUser (processRows emptyDB [rowNoEmail, rowBob]).1 (some "S002") =
        none := by
  decide

/-- C1 amended: when the account upsert of a row raises, the exception
propagates out of the loop: the batch result is exactly that failing
iteration, the rows after it are never processed, and no failure record
exists — the task returns only the store and the exception. -/
theorem failed_row_aborts_batch (pre : List Row) (r : Row) (rest : List Row)
    (db : DB) (hpre : (processRows db pre).2 = none)
    (herr : ((processRow (processRows db pre).1 r).2).isSome = true) :
    processRows db (pre ++ r :: rest) = processRow (processRows db pre).1 r :=
  processRows_abort pre r rest db hpre herr

/-- C1 amended witness: a good row, then a failing row, then another
good row that is abandoned. -/
theorem failed_row_aborts_batch_witness :
    processRows emptyDB ([rowAda] ++ rowNoEmail :: [rowBob]) =
      processRow (processRows emptyDB [rowAda]).1 rowNoEmail :=
  failed_row_aborts_batch [rowAda] rowNoEmail [rowBob] emptyDB
    (by decide) (by decide)

/-- C6 counterexample.  Two refutations of order independence: rows with
a duplicated reg_no keep the fields of whichever row came first, and a
failing row truncates differently depending on its position. -/
theorem row_order_changes_final_entities :
    ((processRows emptyDB [rowAda, rowAdaVariant]).1.students.map
        Student.first_name = ["Ada"] ∧
      (processRows emptyDB [rowAdaVariant, rowAda]).1.students.map
        Student.first_name = ["Augusta"]) ∧
    ((processRows emptyDB [rowNoEmail, rowBob]).1.students.map
        Student.reg_no = [] ∧
      (processRows emptyDB [rowBob, rowNoEmail]).1.students.map
        Student.reg_no = ["S002"]) := by
  decide

/-- C6 amended: when the in-order run succeeds, the reg_no keys are
pairwise distinct and the store satisfies its unique constraints, every
permutation of the rows also succeeds and produces the same set of rows
in both tables. -/
theorem row_permutation_same_final_set (rows₁ rows₂ : List Row) (db : DB)
    (hperm : List.Perm rows₁ rows₂) (huq : DB.Uniq db)
    (hnd : (rows₁.map (fun r => rowGet r "reg_no")).Nodup)
    (hok : (processRows db rows₁).2 = none) :
    (processRows db rows₂).2 = none ∧
      List.Perm (processRows db rows₂).1.users (processRows db rows₁).1.users ∧
      List.Perm (processRows db rows₂).1.students
        (processRows db rows₁).1.students := by
  obtain ⟨h1, h2⟩ := processRows_perm hperm db huq hnd hok
  exact ⟨h1, h2.1, h2.2⟩

/-- C6 amended witness: swapping two distinct successful rows. -/
theorem row_permutation_same_final_set_witness :
    (processRows emptyDB [rowBob, rowAda]).2 = none ∧
      List.Perm (processRows emptyDB [rowBob, rowAda]).1.users
        (processRows emptyDB [rowAda, rowBob]).1.users ∧
      List.Perm (processRows emptyDB [rowBob, rowAda]).1.students
        (processRows emptyDB [rowAda, rowBob]).1.students :=
  row_permutation_same_final_set [rowAda, rowBob] [rowBob, rowAda] emptyDB
    (List.Perm.swap rowBob rowAda []) ⟨by decide, by decide⟩
    (by decide) (by decide)

/-- C7 counterexample.  A short row under the full header: the parser
produces the row without failing, but its department value is `None`
rather than the empty string, so the profile insert fails and no profile
is created. -/
theorem short_row_gets_none_not_empty_string :
    ((csvRows [hdrLine, lineAdaShort]).map
        (fun r => rowGetD r "department" "") = [none]) ∧
      (processCsv emptyDB [hdrLine, lineAdaShort]).2 =
        some PyError.integrityError ∧
      (processCsv emptyDB [hdrLine, lineAdaShort]).1.students = [] := by
  decide

/-- C7 amended: the empty-string default is applied only when the column
is absent from the header; a column present in the header but beyond the
end of a short row is padded with `None`, and a row whose department
value is `None` fails the profile insert and creates no profile. -/
theorem absent_column_vs_short_row_defaults :
    (∀ (header fields : List String) (col d : String), col ∉ header →
      rowGetD (zipRow header fields) col d = some d) ∧
    (∀ (header fields : List String) (col d : String), header.Nodup →
      col ∈ header.drop fields.length →
      rowGetD (zipRow header fields) col d = none) ∧
    (∀ (db : DB) (r : Row), findStudent db (rowGet r "reg_no") = none →
      rowGetD r "department" "" = none →
      (processRow db r).1.students = db.students ∧
        (processRow db r).2 = some PyError.integrityError) := by
  refine ⟨?_, ?_, ?_⟩
  · intro header fields col d h
    simp [rowGetD, zipRow_lookup_not_mem header fields h]
  · intro header fields col d hnd h
    simp [rowGetD, zipRow_lookup_short header fields hnd h]
  · intro db r hs hdep
    have hd := upsertsOf_dep_none (findUser db (rowGet r "reg_no")) r hdep
    rw [processRow_eq, hs]
    constructor
    · simp [hd.1]
    · simp [hd.2]

/-- C7 amended witness: a header-absent column defaults, a short-row
column pads with `None`, and the `None` department aborts the insert. -/
theorem absent_column_vs_short_row_defaults_witness :
    rowGetD (zipRow ["reg_no"] ["S1"]) "department" "x" = some "x" ∧
      rowGetD (zipRow ["reg_no", "department"] ["S1"]) "department" "" = none ∧
      ((processRow emptyDB [("reg_no", some "S9"), ("department", none)]).1.students =
          emptyDB.students ∧
        (processRow emptyDB [("reg_no", some "S9"), ("department", none)]).2 =
          some PyError.integrityError) :=
  ⟨absent_column_vs_short_row_defaults.1 ["reg_no"] ["S1"] "department" "x"
      (by decide),
   absent_column_vs_short_row_defaults.2.1 ["reg_no", "department"] ["S1"]
      "department" "" (by decide) (by decide),
   absent_column_vs_short_row_defaults.2.2 emptyDB
      [("reg_no", some "S9"), ("department", none)] (by decide) (by decide)⟩

/-- C8 counterexample.  A file submitted without its header line: the
reader silently consumes the first data line as the header, still
produces a row for the second line (no SchemaError, no failure before
rows), and the job then dies on an IntegrityError from the account
upsert, not on a parse error. -/
theorem missing_header_first_line_swallowed :
    (csvRows [lineDan, lineEve]).length = 1 ∧
      (processCsv emptyDB [lineDan, lineEve]).2 = some PyError.integrityError ∧
      (processCsv emptyDB [lineDan, lineEve]).1 = emptyDB := by
  decide

/-- C8 amended: the reader never validates the header.  Whatever first
line it is given becomes the header; if that header lacks the reg_no
column and some decodable data row exists, the job fails at the first
data row with an IntegrityError from the account upsert — after rows
have been produced — and no entity is created. -/
theorem missing_header_not_validated (db : DB) (hline : List Nat)
    (rest : List (List Nat)) (header : List String)
    (hph : parseLine hline = some header) (hreg : "reg_no" ∉ header)
    (hdec : ∀ l ∈ rest, (utf8Decode l).isSome = true)
    (hne : csvRows (hline :: rest) ≠ []) :
    processCsv db (hline :: rest) = (db, some PyError.integrityError) := by
  have hex : ∃ l ∈ rest, ∃ f fs, parseLine l = some (f :: fs) := by
    by_contra hc
    push_neg at hc
    apply hne
    simp only [csvRows, hph]
    rw [List.filterMap_eq_nil_iff]
    intro a ha
    cases hpa : parseLine a with
    | none => rfl
    | some fields =>
      cases fields with
      | nil => rfl
      | cons f fs => exact absurd hpa (hc a ha f fs)
  simp only [processCsv, hph]
  exact processCsvData_no_reg header hreg rest db hdec hex

/-- C8 amended witness: two data lines and no header line. -/
theorem missing_header_not_validated_witness :
    processCsv emptyDB (lineDan :: [lineEve]) =
      (emptyDB, some PyError.integrityError) :=
  missing_header_not_validated emptyDB lineDan [lineEve]
    ["S010", "Dan", "Day", "dan@x.com", "CS", "100"]
    (by decide) (by decide) (by decide) (by decide)

theorem ascii_append {a b : List Nat} (ha : Ascii a) (hb : Ascii b) :
    Ascii (a ++ b) := by
  intro x hx
  rcases List.mem_append.mp hx with h | h
  · exact ha x h
  · exact hb x h

theorem ascii_take {l : List Nat} (n : Nat) (h : Ascii l) : Ascii (l.take n) :=
  fun b hb => h b (List.mem_of_mem_take hb)

theorem ascii_drop {l : List Nat} (n : Nat) (h : Ascii l) : Ascii (l.drop n) :=
  fun b hb => h b (List.mem_of_mem_drop hb)

theorem ascii_joinNl {ls : List (List Nat)} (h : ∀ l ∈ ls, Ascii l) :
    Ascii (joinNl ls) := by
  induction ls with
  | nil => intro b hb; simp [joinNl] at hb
  | cons l ls ih =>
    have : joinNl (l :: ls) = (l ++ [10]) ++ joinNl ls := by simp [joinNl]
    rw [this]
    exact ascii_append
      (ascii_append (h l (List.mem_cons_self _ _)) (by decide))
      (ih (fun x hx => h x (List.mem_cons_of_mem _ hx)))

theorem utf8Step_ascii (b : Nat) (bs : List Nat) (hb : b ≤ 0x7F) :
    utf8Step b bs = .out b bs := by
  unfold utf8Step
  rw [if_pos hb]

theorem utf8Step_ff (bs : List Nat) : utf8Step 0xFF bs = .bad := rfl

/-- The incremental decoder maps a pure-ASCII chunk to itself, with
nothing pending. -/
theorem utf8DecodeFuel_ascii (l : List Nat) :
    ∀ (fuel acc : List Nat), Ascii l → l.length ≤ fuel.length →
      utf8DecodeFuel acc fuel l = some (acc.reverse ++ l, []) := by
  induction l with
  | nil =>
    intro fuel acc _ _
    rw [List.append_nil]
    cases fuel <;> rfl
  | cons b bs ih =>
    intro fuel acc h hlen
    rcases fuel with _ | ⟨f, fuel⟩
    · exact absurd hlen (by simp)
    · have hb : b ≤ 0x7F := h b (List.mem_cons_self _ _)
      have hbs : Ascii bs := fun x hx => h x (List.mem_cons_of_mem _ hx)
      have hlen₁ : bs.length ≤ fuel.length := by
        simp only [List.length_cons] at hlen
        omega
      show (match utf8Step b bs with
        | .out cp rest => utf8DecodeFuel (cp :: acc) fuel rest
        | .fin pend => some (acc.reverse, pend)
        | .bad => none) = some (acc.reverse ++ b :: bs, [])
      rw [utf8Step_ascii b bs hb]
      show utf8DecodeFuel (b :: acc) fuel bs = _
      rw [ih fuel (b :: acc) hbs hlen₁]
      simp

theorem utf8DecodePart_ascii {l : List Nat} (h : Ascii l) :
    utf8DecodePart l = some (l, []) := by
  unfold utf8DecodePart
  rw [utf8DecodeFuel_ascii l l [] h (Nat.le_refl _)]
  rw [List.reverse_nil, List.nil_append]

/-- An ASCII chunk followed by the byte 0xFF fails to decode: 0xFF
starts no UTF-8 sequence. -/
theorem utf8DecodeFuel_ascii_ff (l : List Nat) :
    ∀ (fuel acc : List Nat), Ascii l → l.length + 1 ≤ fuel.length →
      utf8DecodeFuel acc fuel (l ++ [0xFF]) = none := by
  induction l with
  | nil =>
    intro fuel acc _ hlen
    rcases fuel with _ | ⟨f, fuel⟩
    · exact absurd hlen (by simp)
    · rfl
  | cons b bs ih =>
    intro fuel acc h hlen
    rcases fuel with _ | ⟨f, fuel⟩
    · exact absurd hlen (by simp)
    · have hb : b ≤ 0x7F := h b (List.mem_cons_self _ _)
      have hbs : Ascii bs := fun x hx => h x (List.mem_cons_of_mem _ hx)
      have hlen₁ : bs.length + 1 ≤ fuel.length := by
        simp only [List.length_cons] at hlen
        omega
      rw [List.cons_append]
      show (match utf8Step b (bs ++ [0xFF]) with
        | .out cp rest => utf8DecodeFuel (cp :: acc) fuel rest
        | .fin pend => some (acc.reverse, pend)
        | .bad => none) = none
      rw [utf8Step_ascii b (bs ++ [0xFF]) hb]
      show utf8DecodeFuel (b :: acc) fuel (bs ++ [0xFF]) = none
      exact ih fuel (b :: acc) hbs hlen₁

theorem utf8DecodePart_ascii_ff {l : List Nat} (h : Ascii l) :
    utf8DecodePart (l ++ [0xFF]) = none := by
  unfold utf8DecodePart
  refine utf8DecodeFuel_ascii_ff l (l ++ [0xFF]) [] h ?_
  simp

theorem chunksOfAux_stop (n : Nat) (fuel : List Nat) :
    chunksOfAux n fuel [] = [] := by
  cases fuel <;> rfl

theorem chunksOfAux_two (n a b : Nat) (fuel d l₁ l₂ : List Nat)
    (hd : d = l₁ ++ l₂) (h₁ : l₁.length = n) (hne : l₁ ≠ [])
    (h₃ : l₂ ≠ []) (h₄ : l₂.length ≤ n) :
    chunksOfAux n (a :: b :: fuel) d = [l₁, l₂] := by
  subst hd
  have he₁ : (l₁ ++ l₂).isEmpty = false := by
    cases l₁ with
    | nil => exact absurd rfl hne
    | cons x xs => rfl
  have he₂ : l₂.isEmpty = false := by
    cases l₂ with
    | nil => exact absurd rfl h₃
    | cons x xs => rfl
  simp only [chunksOfAux, he₁, he₂, Bool.false_eq_true, if_false,
    List.take_left' h₁, List.drop_left' h₁, List.take_of_length_le h₄,
    List.drop_eq_nil_of_le h₄, chunksOfAux_stop]

theorem chunksOf_two {n : Nat} {d l₁ l₂ : List Nat} (hd : d = l₁ ++ l₂)
    (h₁ : l₁.length = n) (h₂ : 2 ≤ n) (h₃ : l₂ ≠ []) (h₄ : l₂.length ≤ n) :
    chunksOf n d = [l₁, l₂] := by
  subst hd
  have hn0 : (n == 0) = false := by
    refine beq_eq_false_iff_ne.mpr ?_
    omega
  unfold chunksOf
  rw [hn0]
  rcases l₁ with _ | ⟨x, l₁t⟩
  · simp at h₁; omega
  rcases l₁t with _ | ⟨y, t⟩
  · simp at h₁; omega
  have hsp : (x :: y :: t) ++ l₂ = x :: y :: (t ++ l₂) := by simp
  rw [hsp]
  exact chunksOfAux_two n x y (t ++ l₂) (x :: y :: (t ++ l₂)) (x :: y :: t) l₂
    (by simp) h₁ (by simp) h₃ h₄

theorem chunksOfAux_three (n a b c : Nat) (fuel d l₁ l₂ l₃ : List Nat)
    (hd : d = l₁ ++ (l₂ ++ l₃)) (h₁ : l₁.length = n) (hne₁ : l₁ ≠ [])
    (h₂ : l₂.length = n) (hne₂ : l₂ ≠ [])
    (h₃ : l₃ ≠ []) (h₄ : l₃.length ≤ n) :
    chunksOfAux n (a :: b :: c :: fuel) d = [l₁, l₂, l₃] := by
  subst hd
  have he₁ : (l₁ ++ (l₂ ++ l₃)).isEmpty = false := by
    cases l₁ with
    | nil => exact absurd rfl hne₁
    | cons x xs => rfl
  simp only [chunksOfAux, he₁, Bool.false_eq_true, if_false,
    List.take_left' h₁, List.drop_left' h₁]
  exact congrArg (l₁ :: ·)
    (chunksOfAux_two n b c fuel (l₂ ++ l₃) l₂ l₃ rfl h₂ hne₂ h₃ h₄)

theorem chunksOf_three {n : Nat} {d l₁ l₂ l₃ : List Nat}
    (hd : d = l₁ ++ (l₂ ++ l₃)) (h₁ : l₁.length = n) (hn : 3 ≤ n)
    (h₂ : l₂.length = n) (hne₂ : l₂ ≠ [])
    (h₃ : l₃ ≠ []) (h₄ : l₃.length ≤ n) :
    chunksOf n d = [l₁, l₂, l₃] := by
  subst hd
  have hn0 : (n == 0) = false := by
    refine beq_eq_false_iff_ne.mpr ?_
    omega
  unfold chunksOf
  rw [hn0]
  rcases l₁ with _ | ⟨x, l₁t⟩
  · simp at h₁; omega
  rcases l₁t with _ | ⟨y, l₁t⟩
  · simp at h₁; omega
  rcases l₁t with _ | ⟨z, t⟩
  · simp at h₁; omega
  have hsp : (x :: y :: z :: t) ++ (l₂ ++ l₃) = x :: y :: z :: (t ++ (l₂ ++ l₃)) := by
    simp
  rw [hsp]
  exact chunksOfAux_three n x y z (t ++ (l₂ ++ l₃))
    (x :: y :: z :: (t ++ (l₂ ++ l₃))) (x :: y :: z :: t) l₂ l₃
    (by simp) h₁ (by simp) h₂ hne₂ h₃ h₄

/-- One good ASCII chunk, then a chunk that fails to decode: the text
of the first chunk is available and the stream is marked bad. -/
theorem decodeStream_two_bad {A C : List Nat}
    (hA : utf8DecodePart A = some (A, [])) (hC : utf8DecodePart C = none) :
    decodeStream [A, C] = (A, false) := by
  simp [decodeStream, decodeStreamAux, hA, hC]

theorem decodeStream_three_bad {A₁ A₂ C : List Nat}
    (h₁ : utf8DecodePart A₁ = some (A₁, []))
    (h₂ : utf8DecodePart A₂ = some (A₂, []))
    (hC : utf8DecodePart C = none) :
    decodeStream [A₁, A₂, C] = (A₁ ++ A₂, false) := by
  simp [decodeStream, decodeStreamAux, h₁, h₂, hC]

theorem splitLinesLoop_skip (line : List Nat) :
    ∀ (cur : List Nat) (acc : List (List Nat)) (rest : List Nat), 10 ∉ line →
      splitLinesLoop cur acc (line ++ rest) =
        splitLinesLoop (line.reverse ++ cur) acc rest := by
  induction line with
  | nil => intro cur acc rest _; simp
  | cons c cs ih =>
    intro cur acc rest h
    have hc : (c == 10) = false := by
      refine beq_eq_false_iff_ne.mpr ?_
      intro hcc
      exact h (hcc ▸ List.mem_cons_self _ _)
    simp only [List.cons_append, splitLinesLoop, hc, Bool.false_eq_true,
      if_false, List.append_eq]
    rw [ih (c :: cur) acc rest (fun hx => h (List.mem_cons_of_mem _ hx))]
    simp

theorem splitLinesLoop_join (ls : List (List Nat)) :
    ∀ (acc : List (List Nat)) (p : List Nat),
      (∀ l ∈ ls, 10 ∉ l) → 10 ∉ p →
      splitLinesLoop [] acc (joinNl ls ++ p) = (acc.reverse ++ ls, p) := by
  induction ls with
  | nil =>
    intro acc p _ hp
    have h₀ := splitLinesLoop_skip p [] acc [] hp
    rw [List.append_nil] at h₀
    rw [show joinNl [] ++ p = p by simp [joinNl]]
    rw [h₀]
    simp [splitLinesLoop]
  | cons l ls ih =>
    intro acc p h hp
    have hl : 10 ∉ l := h l (List.mem_cons_self _ _)
    have hrw : joinNl (l :: ls) ++ p = l ++ (10 :: (joinNl ls ++ p)) := by
      simp [joinNl]
    rw [hrw, splitLinesLoop_skip l [] acc (10 :: (joinNl ls ++ p)) hl]
    rw [List.append_nil]
    rw [show splitLinesLoop l.reverse acc (10 :: (joinNl ls ++ p)) =
      splitLinesLoop [] (l.reverse.reverse :: acc) (joinNl ls ++ p) from rfl]
    rw [List.reverse_reverse]
    rw [ih (l :: acc) p (fun x hx => h x (List.mem_cons_of_mem _ hx)) hp]
    simp

theorem splitAtNewlines_join {ls : List (List Nat)} {p : List Nat}
    (h : ∀ l ∈ ls, 10 ∉ l) (hp : 10 ∉ p) :
    splitAtNewlines (joinNl ls ++ p) = (ls, p) := by
  unfold splitAtNewlines
  rw [splitLinesLoop_join ls [] p h hp]
  simp

/-- Before a failing chunk only the complete lines are available. -/
theorem availableLines_bad_join {ls : List (List Nat)} {p : List Nat}
    (h : ∀ l ∈ ls, 10 ∉ l) (hp : 10 ∉ p) :
    availableLines (joinNl ls ++ p) false = ls := by
  simp [availableLines, splitAtNewlines_join h hp]

set_option maxRecDepth 8000 in
theorem cexRegs_row_length : ∀ rn ∈ cexRegs, (cexRow rn).length = 232 := by
  decide

set_option maxRecDepth 8000 in
theorem cexRegs_row_ascii : ∀ rn ∈ cexRegs, Ascii (cexRow rn) := by
  decide

set_option maxRecDepth 8000 in
theorem cexRegs_row_no_nl : ∀ rn ∈ cexRegs, 10 ∉ cexRow rn := by
  decide

theorem hdrLine_ascii : Ascii hdrLine := by decide

set_option maxRecDepth 8000 in
theorem cexLastRow_ascii : Ascii cexLastRow := by decide

theorem joinNl_length_const (k : Nat) (ls : List (List Nat))
    (h : ∀ l ∈ ls, l.length = k) :
    (joinNl ls).length = ls.length * (k + 1) := by
  induction ls with
  | nil => simp [joinNl]
  | cons l ls ih =>
    rw [show joinNl (l :: ls) = (l ++ [10]) ++ joinNl ls from by simp [joinNl]]
    rw [List.length_append, List.length_append,
      h l (List.mem_cons_self _ _),
      ih (fun x hx => h x (List.mem_cons_of_mem _ hx))]
    simp [List.length_cons]
    ring

set_option maxRecDepth 8000 in
theorem streamA_length : streamA.length = 8192 := by
  have hrows : ∀ l ∈ cexRegs.map cexRow, l.length = 232 := by
    intro l hl
    obtain ⟨rn, hrn, rfl⟩ := List.mem_map.mp hl
    exact cexRegs_row_length rn hrn
  have h1 : (joinNl cexLines).length = 7973 := by
    rw [show joinNl cexLines = (hdrLine ++ [10]) ++ joinNl (cexRegs.map cexRow)
      from by simp [joinNl, cexLines]]
    rw [List.length_append, List.length_append,
      joinNl_length_const 232 (cexRegs.map cexRow) hrows,
      List.length_map]
    norm_num [show hdrLine.length = 50 from by decide,
      show cexRegs.length = 34 from by decide]
  rw [show streamA = joinNl cexLines ++ cexLastRow.take 219 from rfl,
    List.length_append, h1, List.length_take,
    show cexLastRow.length = 232 from by decide]
  norm_num

theorem streamA_ascii : Ascii streamA := by
  refine ascii_append (ascii_joinNl ?_) (ascii_take 219 cexLastRow_ascii)
  intro l hl
  rcases List.mem_cons.mp hl with rfl | hl
  · exact hdrLine_ascii
  · obtain ⟨rn, hrn, rfl⟩ := List.mem_map.mp hl
    exact cexRegs_row_ascii rn hrn

theorem streamB_ascii : Ascii streamB :=
  ascii_append (ascii_drop 219 cexLastRow_ascii) (by decide)

set_option maxRecDepth 8000 in
theorem badTail_chunks_8192 :
    chunksOf 8192 badTailStream = [streamA, streamB ++ [0xFF]] := by
  refine chunksOf_two rfl streamA_length (by norm_num) (by simp) ?_
  rw [List.length_append, streamB, List.length_append, List.length_drop,
    show cexLastRow.length = 232 from by decide]
  norm_num

set_option maxRecDepth 8000 in
theorem badTail_chunks_4096 :
    chunksOf 4096 badTailStream =
      [streamA.take 4096, streamA.drop 4096, streamB ++ [0xFF]] := by
  refine chunksOf_three ?_ ?_ (by norm_num) ?_ ?_ (by simp) ?_
  · show badTailStream = _
    rw [← List.append_assoc, List.take_append_drop]
    rfl
  · rw [List.length_take, streamA_length]
    norm_num
  · rw [List.length_drop, streamA_length]
  · intro hc
    have := congrArg List.length hc
    rw [List.length_drop, streamA_length] at this
    simp at this
  · rw [List.length_append, streamB, List.length_append, List.length_drop,
      show cexLastRow.length = 232 from by decide]
    norm_num

theorem badTail_decode_8192 :
    decodeStream (chunksOf 8192 badTailStream) = (streamA, false) := by
  rw [badTail_chunks_8192]
  exact decodeStream_two_bad (utf8DecodePart_ascii streamA_ascii)
    (utf8DecodePart_ascii_ff streamB_ascii)

theorem badTail_decode_4096 :
    decodeStream (chunksOf 4096 badTailStream) = (streamA, false) := by
  rw [badTail_chunks_4096]
  rw [decodeStream_three_bad (utf8DecodePart_ascii (ascii_take 4096 streamA_ascii))
    (utf8DecodePart_ascii (ascii_drop 4096 streamA_ascii))
    (utf8DecodePart_ascii_ff streamB_ascii)]
  rw [List.take_append_drop]

set_option maxRecDepth 8000 in
theorem streamA_lines : availableLines streamA false = cexLines := by
  rw [show streamA = joinNl cexLines ++ cexLastRow.take 219 from rfl]
  refine availableLines_bad_join ?_ ?_
  · intro l hl
    rcases List.mem_cons.mp hl with rfl | hl
    · decide
    · obtain ⟨rn, hrn, rfl⟩ := List.mem_map.mp hl
      exact cexRegs_row_no_nl rn hrn
  · intro hmem
    exact absurd (List.mem_of_mem_take hmem) (by decide)

theorem badTail_run_8192 :
    processStream 8192 emptyDB badTailStream =
      processData emptyDB (tokenizeLine hdrLine) false (cexRegs.map cexRow) := by
  simp only [processStream, badTail_decode_8192]
  rw [streamA_lines]
  rfl

theorem badTail_run_4096 :
    processStream 4096 emptyDB badTailStream =
      processData emptyDB (tokenizeLine hdrLine) false (cexRegs.map cexRow) := by
  simp only [processStream, badTail_decode_4096]
  rw [streamA_lines]
  rfl

set_option maxRecDepth 100000 in
theorem badTail_rows_outcome :
    (processData emptyDB (tokenizeLine hdrLine) false (cexRegs.map cexRow)).1.students.length = 34 ∧
      (processData emptyDB (tokenizeLine hdrLine) false (cexRegs.map cexRow)).2 =
        some PyError.decodeError := by
  decide

/-- C4 counterexample.  An upload of 8207 bytes — header, 35 valid rows,
one stray 0xFF byte at the end — is a malformed stream, yet the code
creates 34 profiles before dying: the text layer decodes the first
chunk, the rows wholly inside it are processed, and the decode error
only surfaces at the read that touches the chunk holding the bad byte.
The outcome is the same at chunk granularity 8192
(`TextIOWrapper._CHUNK_SIZE`) and 4096 (a smaller buffered-read
granularity), refuting that a malformed batch creates or reuses no
entity. -/
theorem malformed_stream_creates_entities :
    (decodeStream (chunksOf 8192 badTailStream)).2 = false ∧
      (processStream 8192 emptyDB badTailStream).1.students.length = 34 ∧
      (processStream 8192 emptyDB badTailStream).2 = some PyError.decodeError ∧
      (processStream 4096 emptyDB badTailStream).1.students.length = 34 ∧
      (processStream 4096 emptyDB badTailStream).2 = some PyError.decodeError := by
  refine ⟨?_, ?_, ?_, ?_, ?_⟩
  · rw [badTail_decode_8192]
  · rw [badTail_run_8192]
    exact badTail_rows_outcome.1
  · rw [badTail_run_8192]
    exact badTail_rows_outcome.2
  · rw [badTail_run_4096]
    exact badTail_rows_outcome.1
  · rw [badTail_run_4096]
    exact badTail_rows_outcome.2

/-- C4 amended: a decode error aborts the job at the read that decodes
the chunk carrying the malformed bytes.  (1) When no complete line is
available from the decoded prefix — in particular for any file smaller
than one chunk, where the bad bytes poison the only chunk — the job
aborts before the header or any row, leaving the store untouched.
(2) When the rows available before the bad chunk all succeed, they are
processed, their entities persist, and the job then fails with the
decode error.  (3) A row failure among the available rows aborts the
job first, with the same store and exception as on an intact stream.
(4) In general the job runs exactly the rows available before the bad
chunk and nothing after it. -/
theorem decode_error_at_bad_chunk :
    (∀ (n : Nat) (db : DB) (stream cps : List Nat),
      decodeStream (chunksOf n stream) = (cps, false) →
      availableLines cps false = [] →
      processStream n db stream = (db, some PyError.decodeError)) ∧
    (∀ (db : DB) (header : List String) (data : List (List Nat)),
      (processData db header true data).2 = none →
      processData db header false data =
        ((processData db header true data).1, some PyError.decodeError)) ∧
    (∀ (db : DB) (header : List String) (data : List (List Nat)) (d : DB)
        (e : PyError),
      processData db header true data = (d, some e) →
      processData db header false data = (d, some e)) ∧
    (∀ (n : Nat) (db : DB) (stream cps hline : List Nat)
        (data : List (List Nat)),
      decodeStream (chunksOf n stream) = (cps, false) →
      availableLines cps false = hline :: data →
      processStream n db stream = processData db (tokenizeLine hline) false data) := by
  refine ⟨?_, ?_, ?_, ?_⟩
  · intro n db stream cps hdec hav
    simp only [processStream, hdec]
    rw [hav]
    rfl
  · intro db header data
    induction data generalizing db with
    | nil => intro _; rfl
    | cons lcps rest ih =>
      intro h
      cases ht : tokenizeLine lcps with
      | nil =>
        simp only [processData, ht] at h ⊢
        exact ih db h
      | cons f fs =>
        cases hrow : processRow db (zipRow header (f :: fs)) with
        | mk db₁ o =>
          cases o with
          | none =>
            simp only [processData, ht, hrow] at h ⊢
            exact ih db₁ h
          | some e =>
            simp only [processData, ht, hrow] at h
            cases h
  · intro db header data
    induction data generalizing db with
    | nil => intro d e h; simp [processData] at h
    | cons lcps rest ih =>
      intro d e h
      cases ht : tokenizeLine lcps with
      | nil =>
        simp only [processData, ht] at h ⊢
        exact ih db d e h
      | cons f fs =>
        cases hrow : processRow db (zipRow header (f :: fs)) with
        | mk db₁ o =>
          cases o with
          | none =>
            simp only [processData, ht, hrow] at h ⊢
            exact ih db₁ d e h
          | some e₂ =>
            simp only [processData, ht, hrow] at h ⊢
            exact h
  · intro n db stream cps hline data hdec hav
    simp only [processStream, hdec]
    rw [hav]

/-- C4 amended witness: (1) a 52-byte upload whose only chunk holds the
bad byte aborts with nothing created; (2) one valid available row is
processed before the decode error; (3) a short available row aborts
with the IntegrityError instead; (4) a stream failing in its second
64-byte chunk runs exactly the rows of the first chunk (here: none —
only the header line is complete). -/
theorem decode_error_at_bad_chunk_witness :
    processStream 8192 emptyDB smallBadStream =
      (emptyDB, some PyError.decodeError) ∧
    processData emptyDB
        ["reg_no", "first_name", "last_name", "email", "department", "level"]
        false [asciiBytes "S001,Ada,Lovelace,ada@x.com,CS,300"] =
      ((processData emptyDB
          ["reg_no", "first_name", "last_name", "email", "department", "level"]
          true [asciiBytes "S001,Ada,Lovelace,ada@x.com,CS,300"]).1,
        some PyError.decodeError) ∧
    processData emptyDB
        ["reg_no", "first_name", "last_name", "email", "department", "level"]
        false [asciiBytes "S001,Ada,Lovelace"] =
      (emptyDB, some PyError.integrityError) ∧
    processStream 64 emptyDB midBadStream =
      processData emptyDB (tokenizeLine hdrLine) false [] :=
  ⟨decode_error_at_bad_chunk.1 8192 emptyDB smallBadStream [] (by decide)
      (by decide),
   decode_error_at_bad_chunk.2.1 emptyDB
      ["reg_no", "first_name", "last_name", "email", "department", "level"]
      [asciiBytes "S001,Ada,Lovelace,ada@x.com,CS,300"] (by decide),
   decode_error_at_bad_chunk.2.2.1 emptyDB
      ["reg_no", "first_name", "last_name", "email", "department", "level"]
      [asciiBytes "S001,Ada,Lovelace"] emptyDB PyError.integrityError
      (by decide),
   decode_error_at_bad_chunk.2.2.2 64 emptyDB midBadStream
      (midBadStream.take 64) hdrLine [] (by decide) (by decide)⟩

end MyCeleryApp











